import Mathlib

/-!
Verification development for the Ethereum-transaction codec and validator of
the gowaves node (`pkg/proto/eth_transaction.go`).

The file shallowly embeds the code: byte strings become `List Nat`, Go
`*big.Int` fields become `Int`, Go `uint64` fields become `Nat` (with
explicit `< 2 ^ 64` validity bounds where the decoder enforces them), and
the mutating methods `DecodeCanonical`, `GenerateID` and `GetID` become
explicit state-passing functions on the `EthereumTransaction` record.

The RLP canonical byte format, the three variant payload structs with their
marshal/unmarshal hooks, the wei-to-wavelet conversion, the legacy chain-id
derivation and the Keccak-256 hash live in parts of the repository that are
not among the given sources; those definitions are modelled from the spec
(each carries a doc comment saying so).  Everything else is translated from
`eth_transaction.go` directly.
-/

namespace GowavesEth

/-- Byte strings are lists of naturals; encoders only ever emit values
below 256. -/
abbrev Bytes := List Nat

/-- Network scheme (chain id) of the target ledger; a byte in Go
(`type Scheme = byte`). -/
abbrev Scheme := Nat

/-- Modelled from the spec (§4.1): minimal big-endian byte representation of
a natural number, with the zero value represented by the empty string.
`fuel`-indexed so that the kernel can evaluate it; `beEncode` instantiates
the fuel with the number itself, which always suffices. -/
def beEncodeAux : Nat → Nat → Bytes
  | 0, _ => []
  | _ + 1, 0 => []
  | fuel + 1, n + 1 => beEncodeAux fuel ((n + 1) / 256) ++ [(n + 1) % 256]

/-- Minimal big-endian encoding of a natural number (empty for zero). -/
def beEncode (n : Nat) : Bytes := beEncodeAux n n

/-- Big-endian interpretation of a byte string as a natural number. -/
def beDecode (bs : Bytes) : Nat := bs.foldl (fun acc b => acc * 256 + b) 0

/-- Modelled from the spec (§4.1): decode a canonically (minimally) encoded
integer; a non-empty representation must not start with a zero byte. -/
def decodeMinimalNat (bs : Bytes) : Option Nat :=
  match bs with
  | [] => some 0
  | b :: _ => if b = 0 then none else some (beDecode bs)

/-- Modelled from the spec (§4.1): the recursive length-prefixed canonical
byte format — an item is a byte string or an ordered list of items (RLP). -/
inductive RlpItem where
  | str : Bytes → RlpItem
  | list : List RlpItem → RlpItem

/-- Canonical encoding of a byte string: a single byte below 0x80 stands for
itself; short strings get a one-byte length header; longer strings get a
length-of-length header followed by the minimal big-endian length. -/
def rlpEncodeBytes (bs : Bytes) : Bytes :=
  if bs.length = 1 ∧ bs.headD 0 < 0x80 then bs
  else if bs.length < 56 then (0x80 + bs.length) :: bs
  else (0xb7 + (beEncode bs.length).length) :: (beEncode bs.length ++ bs)

mutual

/-- Modelled from the spec (§4.1): canonical encoding of an item. -/
def rlpEncode : RlpItem → Bytes
  | .str bs => rlpEncodeBytes bs
  | .list items =>
    if (rlpEncodeItems items).length < 56 then
      (0xc0 + (rlpEncodeItems items).length) :: rlpEncodeItems items
    else
      (0xf7 + (beEncode (rlpEncodeItems items).length).length) ::
        (beEncode (rlpEncodeItems items).length ++ rlpEncodeItems items)

/-- Concatenated canonical encodings of a sequence of items. -/
def rlpEncodeItems : List RlpItem → Bytes
  | [] => []
  | x :: xs => rlpEncode x ++ rlpEncodeItems xs

end

mutual

/-- Modelled from the spec (§4.1): canonical decoder for a single item.
It fails on truncated input, on a malformed length prefix, and on
non-canonical encodings (a single byte below 0x80 wrapped in a length
header, a length-of-length with a leading zero byte, or a long form used
for a length below 56).  The fuel argument only bounds recursion depth;
`2 * input.length + 2` always suffices. -/
def parseRlp : Nat → Bytes → Option (RlpItem × Bytes)
  | 0, _ => none
  | _ + 1, [] => none
  | fuel + 1, b :: input =>
    if b < 0x80 then
      some (.str [b], input)
    else if b < 0xb8 then
      let n := b - 0x80
      if n ≤ input.length then
        let s := input.take n
        if n = 1 ∧ s.headD 0 < 0x80 then none
        else some (.str s, input.drop n)
      else none
    else if b < 0xc0 then
      let ll := b - 0xb7
      if ll ≤ input.length then
        let lenBytes := input.take ll
        if lenBytes.headD 0 = 0 then none
        else
          let n := beDecode lenBytes
          if n < 56 then none
          else
            let rest := input.drop ll
            if n ≤ rest.length then some (.str (rest.take n), rest.drop n) else none
      else none
    else if b < 0xf8 then
      let n := b - 0xc0
      if n ≤ input.length then
        match parseRlpItems fuel (input.take n) with
        | some items => some (.list items, input.drop n)
        | none => none
      else none
    else
      let ll := b - 0xf7
      if ll ≤ input.length then
        let lenBytes := input.take ll
        if lenBytes.headD 0 = 0 then none
        else
          let n := beDecode lenBytes
          if n < 56 then none
          else
            let rest := input.drop ll
            if n ≤ rest.length then
              match parseRlpItems fuel (rest.take n) with
              | some items => some (.list items, rest.drop n)
              | none => none
            else none
      else none

/-- Decode a whole byte string as a sequence of items (the payload of a
list), requiring that it be consumed exactly. -/
def parseRlpItems : Nat → Bytes → Option (List RlpItem)
  | 0, _ => none
  | _ + 1, [] => some []
  | fuel + 1, b :: input =>
    match parseRlp fuel (b :: input) with
    | some (item, rest) =>
      match parseRlpItems fuel rest with
      | some items => some (item :: items)
      | none => none
    | none => none

end

/-- Parse a byte string as exactly one item with nothing left over, as the
fastrlp parser does for a transaction body. -/
def parseRlpFull (bs : Bytes) : Option RlpItem :=
  match parseRlp (2 * bs.length + 2) bs with
  | some (item, []) => some item
  | _ => none

mutual

/-- Fuel cost of parsing an item: an upper bound on the recursion depth the
decoder needs on this item's encoding. -/
def rlpCost : RlpItem → Nat
  | .str _ => 1
  | .list items => 1 + rlpCostItems items

/-- Fuel cost of parsing a sequence of items. -/
def rlpCostItems : List RlpItem → Nat
  | [] => 1
  | x :: xs => 1 + max (rlpCost x) (rlpCostItems xs)

end

mutual

/-- Validity of an item for encoding: every byte-string length and every
list-payload length fits the decoder's eight-byte length prefix
(`< 2 ^ 64`). -/
def rlpWf : RlpItem → Bool
  | .str bs => decide (bs.length < 2 ^ 64)
  | .list items => decide ((rlpEncodeItems items).length < 2 ^ 64) && rlpWfItems items

/-- Validity of a sequence of items. -/
def rlpWfItems : List RlpItem → Bool
  | [] => true
  | x :: xs => rlpWf x && rlpWfItems xs

end

/-- Modelled from the spec (§4.2): decode an RLP string field as a 64-bit
unsigned integer — minimal encoding of at most eight bytes. -/
def decodeU64 : RlpItem → Option Nat
  | .str bs => if bs.length ≤ 8 then decodeMinimalNat bs else none
  | .list _ => none

/-- Modelled from the spec (§4.2): decode an RLP string field as an
arbitrary-precision non-negative integer (minimal encoding). -/
def decodeBigInt : RlpItem → Option Int
  | .str bs => (decodeMinimalNat bs).map Int.ofNat
  | .list _ => none

/-- Modelled from the spec (§4.2): decode the optional recipient — the
empty string denotes an absent recipient (contract creation), otherwise
exactly twenty address bytes. -/
def decodeTo : RlpItem → Option (Option Bytes)
  | .str [] => some none
  | .str bs => if bs.length = 20 then some (some bs) else none
  | .list _ => none

/-- Decode an opaque call-data field (any byte string). -/
def decodeData : RlpItem → Option Bytes
  | .str bs => some bs
  | .list _ => none

/-- Marshal a 64-bit field as a minimal big-endian string item. -/
def marshalNat (n : Nat) : RlpItem := .str (beEncode n)

/-- Marshal a non-negative big-integer field as a minimal big-endian
string item. -/
def marshalInt (i : Int) : RlpItem := .str (beEncode i.toNat)

/-- Marshal the optional recipient (empty string when absent). -/
def marshalTo : Option Bytes → RlpItem
  | none => .str []
  | some a => .str a

/-- An ethereum transaction type (`EthereumTxType` in the code): legacy is
numeric tag 0, access-list tag 1, dynamic-fee tag 2. -/
inductive EthereumTxType where
  | legacy
  | accessList
  | dynamicFee
  deriving DecidableEq

/-- The numeric value of a transaction type tag byte. -/
def EthereumTxType.tag : EthereumTxType → Nat
  | .legacy => 0
  | .accessList => 1
  | .dynamicFee => 2

/-- Modelled from the spec (§3): one entry of an access list — an address
and a set of storage keys. -/
structure EthereumAccessTuple where
  Address : Bytes
  StorageKeys : List Bytes
  deriving DecidableEq

/-- An access list: address → storage keys, part of the signed payload. -/
abbrev EthereumAccessList := List EthereumAccessTuple

/-- Modelled from the spec (§4.2): the legacy variant payload
`[nonce, gasPrice, gasLimit, to, value, data, v, r, s]`. -/
structure EthereumLegacyTx where
  Nonce : Nat
  GasPrice : Int
  Gas : Nat
  To : Option Bytes
  Value : Int
  Data : Bytes
  V : Int
  R : Int
  S : Int
  deriving DecidableEq

/-- Modelled from the spec (§4.2): the access-list variant payload
`[chainId, nonce, gasPrice, gasLimit, to, value, data, accessList]` plus
the signature triple. -/
structure EthereumAccessListTx where
  ChainID : Int
  Nonce : Nat
  GasPrice : Int
  Gas : Nat
  To : Option Bytes
  Value : Int
  Data : Bytes
  AccessList : EthereumAccessList
  V : Int
  R : Int
  S : Int
  deriving DecidableEq

/-- Modelled from the spec (§4.2): the dynamic-fee variant payload — the
single gas price is replaced by `gasTipCap, gasFeeCap`. -/
structure EthereumDynamicFeeTx where
  ChainID : Int
  Nonce : Nat
  GasTipCap : Int
  GasFeeCap : Int
  Gas : Nat
  To : Option Bytes
  Value : Int
  Data : Bytes
  AccessList : EthereumAccessList
  V : Int
  R : Int
  S : Int
  deriving DecidableEq

/-- Marshal the storage keys of one access tuple. -/
def marshalStorageKeys : List Bytes → List RlpItem
  | [] => []
  | k :: ks => .str k :: marshalStorageKeys ks

/-- Marshal one access tuple as `[address, [key, ...]]`. -/
def marshalAccessTuple (t : EthereumAccessTuple) : RlpItem :=
  .list [.str t.Address, .list (marshalStorageKeys t.StorageKeys)]

/-- Marshal the entries of an access list. -/
def marshalAccessListItems : EthereumAccessList → List RlpItem
  | [] => []
  | t :: ts => marshalAccessTuple t :: marshalAccessListItems ts

/-- Marshal a whole access list as a list of tuples. -/
def marshalAccessList (al : EthereumAccessList) : RlpItem :=
  .list (marshalAccessListItems al)

/-- Decode the storage keys of one access tuple (each exactly 32 bytes). -/
def decodeStorageKeys : List RlpItem → Option (List Bytes)
  | [] => some []
  | .str k :: rest =>
    if k.length = 32 then (decodeStorageKeys rest).map (k :: ·) else none
  | _ => none

/-- Decode one access tuple `[address, [key, ...]]` (address of 20 bytes). -/
def decodeAccessTuple : RlpItem → Option EthereumAccessTuple
  | .list [.str addr, .list keys] =>
    if addr.length = 20 then (decodeStorageKeys keys).map (fun ks => ⟨addr, ks⟩) else none
  | _ => none

/-- Decode the entries of an access list. -/
def decodeAccessTuples : List RlpItem → Option EthereumAccessList
  | [] => some []
  | t :: ts => do
    let tup ← decodeAccessTuple t
    let rest ← decodeAccessTuples ts
    some (tup :: rest)

/-- Decode a whole access list. -/
def decodeAccessList : RlpItem → Option EthereumAccessList
  | .list items => decodeAccessTuples items
  | .str _ => none

/-- Modelled from the spec (§4.2): `marshalToFastRLP` hook of the legacy
variant — the nine fields in order. -/
def EthereumLegacyTx.marshalToFastRLP (l : EthereumLegacyTx) : RlpItem :=
  .list [marshalNat l.Nonce, marshalInt l.GasPrice, marshalNat l.Gas, marshalTo l.To,
    marshalInt l.Value, .str l.Data, marshalInt l.V, marshalInt l.R, marshalInt l.S]

/-- Modelled from the spec (§4.2): `unmarshalFromFastRLP` of the legacy
variant — exactly nine fields, each decoded canonically. -/
def EthereumLegacyTx.unmarshalFromFastRLP : RlpItem → Option EthereumLegacyTx
  | .list [f1, f2, f3, f4, f5, f6, f7, f8, f9] => do
    let nonce ← decodeU64 f1
    let gasPrice ← decodeBigInt f2
    let gas ← decodeU64 f3
    let toAddr ← decodeTo f4
    let value ← decodeBigInt f5
    let d ← decodeData f6
    let v ← decodeBigInt f7
    let r ← decodeBigInt f8
    let s ← decodeBigInt f9
    some ⟨nonce, gasPrice, gas, toAddr, value, d, v, r, s⟩
  | _ => none

/-- Modelled from the spec (§4.2): `marshalToFastRLP` hook of the
access-list variant — chain id first, then the legacy-like fields, the
access list, and the signature triple. -/
def EthereumAccessListTx.marshalToFastRLP (a : EthereumAccessListTx) : RlpItem :=
  .list [marshalInt a.ChainID, marshalNat a.Nonce, marshalInt a.GasPrice, marshalNat a.Gas,
    marshalTo a.To, marshalInt a.Value, .str a.Data, marshalAccessList a.AccessList,
    marshalInt a.V, marshalInt a.R, marshalInt a.S]

/-- Modelled from the spec (§4.2): `DecodeRLP` of the access-list variant —
exactly eleven fields, each decoded canonically. -/
def EthereumAccessListTx.unmarshalFromFastRLP : RlpItem → Option EthereumAccessListTx
  | .list [f1, f2, f3, f4, f5, f6, f7, f8, f9, f10, f11] => do
    let chainId ← decodeBigInt f1
    let nonce ← decodeU64 f2
    let gasPrice ← decodeBigInt f3
    let gas ← decodeU64 f4
    let toAddr ← decodeTo f5
    let value ← decodeBigInt f6
    let d ← decodeData f7
    let al ← decodeAccessList f8
    let v ← decodeBigInt f9
    let r ← decodeBigInt f10
    let s ← decodeBigInt f11
    some ⟨chainId, nonce, gasPrice, gas, toAddr, value, d, al, v, r, s⟩
  | _ => none

/-- Modelled from the spec (§4.2): `marshalToFastRLP` hook of the
dynamic-fee variant — gas tip cap and fee cap replace the single price. -/
def EthereumDynamicFeeTx.marshalToFastRLP (df : EthereumDynamicFeeTx) : RlpItem :=
  .list [marshalInt df.ChainID, marshalNat df.Nonce, marshalInt df.GasTipCap,
    marshalInt df.GasFeeCap, marshalNat df.Gas, marshalTo df.To, marshalInt df.Value,
    .str df.Data, marshalAccessList df.AccessList,
    marshalInt df.V, marshalInt df.R, marshalInt df.S]

/-- Modelled from the spec (§4.2): `DecodeRLP` of the dynamic-fee variant —
exactly twelve fields, each decoded canonically. -/
def EthereumDynamicFeeTx.unmarshalFromFastRLP : RlpItem → Option EthereumDynamicFeeTx
  | .list [f1, f2, f3, f4, f5, f6, f7, f8, f9, f10, f11, f12] => do
    let chainId ← decodeBigInt f1
    let nonce ← decodeU64 f2
    let gasTipCap ← decodeBigInt f3
    let gasFeeCap ← decodeBigInt f4
    let gas ← decodeU64 f5
    let toAddr ← decodeTo f6
    let value ← decodeBigInt f7
    let d ← decodeData f8
    let al ← decodeAccessList f9
    let v ← decodeBigInt f10
    let r ← decodeBigInt f11
    let s ← decodeBigInt f12
    some ⟨chainId, nonce, gasTipCap, gasFeeCap, gas, toAddr, value, d, al, v, r, s⟩
  | _ => none

/-- The polymorphic variant payload (`EthereumTxData` interface of the
code, realised by its three implementations). -/
inductive EthereumTxData where
  | legacy : EthereumLegacyTx → EthereumTxData
  | accessListTx : EthereumAccessListTx → EthereumTxData
  | dynamicFee : EthereumDynamicFeeTx → EthereumTxData
  deriving DecidableEq

/-- Modelled from the spec (§3): the legacy chain id is recovered from the
v scalar via the replay-protection encoding `v = 2·chainID + 35 or 36`;
the unprotected values 27 and 28 yield chain id zero. -/
def deriveChainId (v : Int) : Int :=
  if v = 27 ∨ v = 28 then 0 else (v - 35) / 2

/-- The `ethereumTxType()` accessor. -/
def EthereumTxData.ethereumTxType : EthereumTxData → EthereumTxType
  | .legacy _ => .legacy
  | .accessListTx _ => .accessList
  | .dynamicFee _ => .dynamicFee

/-- The `chainID()` accessor: stored for typed variants, derived from v for
the legacy variant. -/
def EthereumTxData.chainID : EthereumTxData → Int
  | .legacy l => deriveChainId l.V
  | .accessListTx a => a.ChainID
  | .dynamicFee df => df.ChainID

/-- The `gas()` accessor (gas limit). -/
def EthereumTxData.gas : EthereumTxData → Nat
  | .legacy l => l.Gas
  | .accessListTx a => a.Gas
  | .dynamicFee df => df.Gas

/-- The `gasPrice()` accessor (the fee cap for the dynamic-fee variant). -/
def EthereumTxData.gasPrice : EthereumTxData → Int
  | .legacy l => l.GasPrice
  | .accessListTx a => a.GasPrice
  | .dynamicFee df => df.GasFeeCap

/-- The `value()` accessor. -/
def EthereumTxData.value : EthereumTxData → Int
  | .legacy l => l.Value
  | .accessListTx a => a.Value
  | .dynamicFee df => df.Value

/-- The `nonce()` accessor. -/
def EthereumTxData.nonce : EthereumTxData → Nat
  | .legacy l => l.Nonce
  | .accessListTx a => a.Nonce
  | .dynamicFee df => df.Nonce

/-- The `to()` accessor (absent for contract creation). -/
def EthereumTxData.to : EthereumTxData → Option Bytes
  | .legacy l => l.To
  | .accessListTx a => a.To
  | .dynamicFee df => df.To

/-- The `data()` accessor (opaque call data). -/
def EthereumTxData.data : EthereumTxData → Bytes
  | .legacy l => l.Data
  | .accessListTx a => a.Data
  | .dynamicFee df => df.Data

/-- The `marshalToFastRLP` hook, dispatched over the variant. -/
def EthereumTxData.marshalToFastRLP : EthereumTxData → RlpItem
  | .legacy l => l.marshalToFastRLP
  | .accessListTx a => a.marshalToFastRLP
  | .dynamicFee df => df.marshalToFastRLP

/-- The transaction envelope (`EthereumTransaction` struct): the variant
payload, the byte length recorded at decode time, and the two memoization
caches (`id`, `senderPK`), both empty until first computed. -/
structure EthereumTransaction where
  inner : EthereumTxData
  innerBinarySize : Nat
  id : Option Bytes
  senderPK : Option Bytes
  deriving DecidableEq

/-- The `EthereumTxType()` method. -/
def EthereumTransaction.EthereumTxType (tx : EthereumTransaction) : EthereumTxType :=
  tx.inner.ethereumTxType

/-- The `ChainId()` method — always non-nil; zero for non-replay-protected
legacy transactions. -/
def EthereumTransaction.ChainId (tx : EthereumTransaction) : Int :=
  tx.inner.chainID

/-- The `Data()` method. -/
def EthereumTransaction.Data (tx : EthereumTransaction) : Bytes := tx.inner.data

/-- The `Gas()` method (gas limit). -/
def EthereumTransaction.Gas (tx : EthereumTransaction) : Nat := tx.inner.gas

/-- The `GasPrice()` method. -/
def EthereumTransaction.GasPrice (tx : EthereumTransaction) : Int := tx.inner.gasPrice

/-- The `Value()` method. -/
def EthereumTransaction.Value (tx : EthereumTransaction) : Int := tx.inner.value

/-- The `Nonce()` method. -/
def EthereumTransaction.Nonce (tx : EthereumTransaction) : Nat := tx.inner.nonce

/-- The `To()` method (`none` for contract creation). -/
def EthereumTransaction.To (tx : EthereumTransaction) : Option Bytes := tx.inner.to

/-- Errors of the typed-transaction decoding path
(`decodeTypedCanonical`): the empty-input error, the two wrapped variant
unmarshalling failures, and `ErrTxTypeNotSupported`. -/
inductive TypedDecodeError where
  | emptyTypedTransactionBytes
  | accessListDecodeError
  | dynamicFeeDecodeError
  | txTypeNotSupported
  deriving DecidableEq

/-- Errors of `DecodeCanonical`: a legacy RLP parse failure, a legacy
unmarshalling failure, or a wrapped typed-path error. -/
inductive DecodeError where
  | legacyParseError
  | legacyUnmarshalError
  | typedError (e : TypedDecodeError)
  deriving DecidableEq

/-- `EncodeCanonical` of a variant payload: the plain RLP list for the
legacy variant, the one-byte type tag followed by the RLP list for typed
variants (`encodeTypedCanonical`). -/
def encodeCanonicalData (x : EthereumTxData) : Bytes :=
  match x with
  | .legacy l => rlpEncode l.marshalToFastRLP
  | .accessListTx a => 1 :: rlpEncode a.marshalToFastRLP
  | .dynamicFee df => 2 :: rlpEncode df.marshalToFastRLP

/-- The `EncodeCanonical()` method.  In the code it returns an error value
that is always nil, so it is embedded as a total function. -/
def EthereumTransaction.EncodeCanonical (tx : EthereumTransaction) : Bytes :=
  encodeCanonicalData tx.inner

/-- Decode an access-list body: parse the RLP and unmarshal
(`EthereumAccessListTx.DecodeRLP`). -/
def decodeAccessListRLP (bs : Bytes) : Option EthereumAccessListTx :=
  match parseRlpFull bs with
  | some item => EthereumAccessListTx.unmarshalFromFastRLP item
  | none => none

/-- Decode a dynamic-fee body: parse the RLP and unmarshal
(`EthereumDynamicFeeTx.DecodeRLP`). -/
def decodeDynamicFeeRLP (bs : Bytes) : Option EthereumDynamicFeeTx :=
  match parseRlpFull bs with
  | some item => EthereumDynamicFeeTx.unmarshalFromFastRLP item
  | none => none

/-- The `decodeTypedCanonical` method: empty input fails with the
"empty typed transaction bytes" error; the first byte is consumed as the
type tag; tag 1 decodes an access-list body, tag 2 a dynamic-fee body; any
other tag fails with `ErrTxTypeNotSupported`. -/
def decodeTypedCanonical : Bytes → Except TypedDecodeError EthereumTxData
  | [] => .error .emptyTypedTransactionBytes
  | txType :: rlpData =>
    if txType = 1 then
      match decodeAccessListRLP rlpData with
      | some a => .ok (.accessListTx a)
      | none => .error .accessListDecodeError
    else if txType = 2 then
      match decodeDynamicFeeRLP rlpData with
      | some df => .ok (.dynamicFee df)
      | none => .error .dynamicFeeDecodeError
    else .error .txTypeNotSupported

/-- The legacy branch of `DecodeCanonical`: parse the whole input as one
RLP value and unmarshal the legacy payload; on success install the payload
and record the byte length. -/
def decodeLegacyCanonical (tx : EthereumTransaction) (canonicalData : Bytes) :
    Option DecodeError × EthereumTransaction :=
  match parseRlpFull canonicalData with
  | none => (some .legacyParseError, tx)
  | some value =>
    match EthereumLegacyTx.unmarshalFromFastRLP value with
    | none => (some .legacyUnmarshalError, tx)
    | some inner =>
      (none, { tx with inner := .legacy inner, innerBinarySize := canonicalData.length })

/-- The `DecodeCanonical` method, embedded state-passing: the Go method
mutates its receiver and returns an error; here it returns the (possibly
unchanged) receiver next to the optional error.  A non-empty input whose
first byte is above 0x7f is a legacy transaction; anything else goes
through the EIP-2718 typed envelope path. -/
def EthereumTransaction.DecodeCanonical (tx : EthereumTransaction) (canonicalData : Bytes) :
    Option DecodeError × EthereumTransaction :=
  if 0 < canonicalData.length ∧ 0x7f < canonicalData.headD 0 then
    decodeLegacyCanonical tx canonicalData
  else
    match decodeTypedCanonical canonicalData with
    | .error e => (some (.typedError e), tx)
    | .ok inner =>
      (none, { tx with inner := inner, innerBinarySize := canonicalData.length })

/-- One GWei in wei: 10^9 (`ethereumGWei` constant; spec §4.5 rule 8). -/
def ethereumGWei : Nat := 1000000000

/-- The required constant gas price: 10 GWei. -/
def EthereumGasPrice : Nat := 10 * ethereumGWei

/-- Validation errors (`errs` package): plain validation errors with their
message, fee-validation errors, and the non-positive-amount error carrying
the offending amount and its unit. -/
inductive ValidationError where
  | txValidationError (msg : String)
  | feeValidation (msg : String)
  | nonPositiveAmount (amount : Int) (of : String)
  deriving DecidableEq

/-- The chain-mismatch message: the Go code renders both numbers with
`%d(%c)`; the `%c` rune rendering is modelled by `Char.ofNat` (identical
for valid code points).  The actual chain id is narrowed to uint64 first
(`tx.ChainId().Uint64()`). -/
def chainMismatchMessage (scheme : Scheme) (txChainID : Nat) : String :=
  "Address belongs to another network: expected: " ++ toString scheme ++ "(" ++
    String.singleton (Char.ofNat scheme) ++ "), actual: " ++ toString txChainID ++ "(" ++
    String.singleton (Char.ofNat txChainID) ++ ")"

/-- The chain-mismatch validation error for a given target scheme and
transaction chain id. -/
def errChainMismatch (scheme : Scheme) (chainId : Int) : ValidationError :=
  .txValidationError (chainMismatchMessage scheme (chainId.toNat % 2 ^ 64))

/-- Rule 2: only the legacy variant is accepted. -/
def errNotLegacy : ValidationError :=
  .txValidationError "the ethereum transaction's type is not legacy tx"

/-- Rule 3: hard 1 MiB size ceiling. -/
def errTooBig : ValidationError := .txValidationError "too big size of transaction"

/-- Rule 4: the gas limit must be positive. -/
def errInsufficientFee : ValidationError := .feeValidation "insufficient fee"

/-- Rule 6: a cancellation (no value, no data) is not supported. -/
def errCancellation : ValidationError :=
  .txValidationError "Transaction cancellation is not supported"

/-- Rule 7: value and data are mutually exclusive. -/
def errEitherDataOrValue : ValidationError :=
  .txValidationError "Transaction should have either data or value"

/-- Rule 8: the gas price must be exactly 10 GWei. -/
def errGasPriceNot10GWei : ValidationError :=
  .txValidationError "Gas price must be 10 Gwei"

/-- Rule 9: contract creation (absent recipient) is not supported. -/
def errContractCreation : ValidationError :=
  .txValidationError "Contract creation transaction is not supported"

/-- Rule 10: the nonce, read as a timestamp, must be positive. -/
def errInvalidTimestamp : ValidationError := .txValidationError "invalid timestamp"

/-- The failure message of the wei-to-wavelet conversion. -/
def weiToInt64ErrorMsg (wei : Int) : String :=
  "failed to convert big int value " ++ toString wei ++ " to int64 value"

/-- Modelled from the spec (§4.5 rule 5, §9): fixed-point conversion of a
wei amount into the ledger's native wavelet unit — Euclidean division
(Go's `big.Int.Div`) by the fixed scale 10^10, narrowed to a signed 64-bit
result with an explicit range check (`EthereumWeiToWavelet`). -/
def EthereumWeiToWavelet (wei : Int) : Except String Int :=
  if Int.ediv wei 10000000000 < -(9223372036854775808 : Int) ∨
      (9223372036854775808 : Int) ≤ Int.ediv wei 10000000000 then
    .error (weiToInt64ErrorMsg wei)
  else .ok (Int.ediv wei 10000000000)

/-- The `Validate` method: the ten checks of §4.5, in source order, first
failure reported.  Go compares `tx.Gas() <= 0` and `tx.Nonce() <= 0` on
uint64 values, which is equality with zero. -/
def EthereumTransaction.Validate (tx : EthereumTransaction) (scheme : Scheme) :
    Except ValidationError EthereumTransaction :=
  if tx.ChainId ≠ Int.ofNat scheme then
    .error (errChainMismatch scheme tx.ChainId)
  else if tx.EthereumTxType ≠ .legacy then
    .error errNotLegacy
  else if 1024 * 1024 < tx.innerBinarySize then
    .error errTooBig
  else if tx.Gas = 0 then
    .error errInsufficientFee
  else
    match EthereumWeiToWavelet tx.Value with
    | .error e => .error (.feeValidation e)
    | .ok wavelets =>
      if wavelets < 0 then
        .error (.nonPositiveAmount wavelets "waves")
      else if tx.Value = 0 ∧ tx.Data = [] then
        .error errCancellation
      else if tx.Value ≠ 0 ∧ tx.Data ≠ [] then
        .error errEitherDataOrValue
      else if tx.GasPrice ≠ Int.ofNat EthereumGasPrice then
        .error errGasPriceNot10GWei
      else if tx.To = none then
        .error errContractCreation
      else if tx.Nonce = 0 then
        .error errInvalidTimestamp
      else
        .ok tx

/-- The `GenerateID` method, with the external Keccak-256 hash passed in
as a function (the crypto package is not among the sources; the identity
theorems hold for every hash function).  A no-op when the id cache is
already populated; `EncodeCanonical` never fails in the code, so neither
does this. -/
def EthereumTransaction.GenerateID (keccak : Bytes → Bytes) (tx : EthereumTransaction)
    (_ : Scheme) : EthereumTransaction :=
  if tx.id.isSome then tx
  else { tx with id := some (keccak tx.EncodeCanonical) }

/-- The `GetID` method: populate the id cache if needed, then return the
cached digest bytes (state-passing: the updated receiver is returned next
to the digest). -/
def EthereumTransaction.GetID (keccak : Bytes → Bytes) (tx : EthereumTransaction)
    (scheme : Scheme) : Bytes × EthereumTransaction :=
  let tx1 := tx.GenerateID keccak scheme
  (tx1.id.getD [], tx1)

/-- Bit length of a natural number (`big.Int.BitLen` of its absolute
value), fuel-indexed for kernel evaluation. -/
def bitLenAux : Nat → Nat → Nat
  | 0, _ => 0
  | _ + 1, 0 => 0
  | fuel + 1, n + 1 => bitLenAux fuel ((n + 1) / 2) + 1

/-- Bit length of a natural number. -/
def bitLen (n : Nat) : Nat := bitLenAux n n

/-- The `isProtectedV` helper: for a v scalar of at most eight bits, v must
not be one of 0, 1, 27, 28; any longer v counts as protected.  (Decoded v
scalars are non-negative; `big.Int.BitLen` is taken on the absolute
value.) -/
def isProtectedV (V : Int) : Bool :=
  if bitLen V.natAbs ≤ 8 then
    decide (V.natAbs ≠ 27) && decide (V.natAbs ≠ 28) &&
      decide (V.natAbs ≠ 1) && decide (V.natAbs ≠ 0)
  else true

/-- The `Protected` method: legacy transactions are protected iff their v
scalar is chain-bound; typed variants are always protected. -/
def EthereumTransaction.Protected (tx : EthereumTransaction) : Bool :=
  match tx.inner with
  | .legacy l => isProtectedV l.V
  | _ => true

/-- Validity of an optional recipient: absent, or exactly twenty bytes. -/
def optionToWf : Option Bytes → Bool
  | none => true
  | some a => decide (a.length = 20)

/-- Validity of storage keys: each exactly 32 bytes. -/
def storageKeysWf : List Bytes → Bool
  | [] => true
  | k :: ks => decide (k.length = 32) && storageKeysWf ks

/-- Validity of an access list: 20-byte addresses and 32-byte keys. -/
def accessListWf : EthereumAccessList → Bool
  | [] => true
  | t :: ts => decide (t.Address.length = 20) && storageKeysWf t.StorageKeys && accessListWf ts

/-- A valid legacy instance: 64-bit nonce and gas, non-negative big-int
fields, a well-formed recipient, and encodable lengths. -/
def legacyWf (l : EthereumLegacyTx) : Bool :=
  decide (l.Nonce < 2 ^ 64) && decide (l.Gas < 2 ^ 64) && decide (0 ≤ l.GasPrice) &&
    decide (0 ≤ l.Value) && decide (0 ≤ l.V) && decide (0 ≤ l.R) && decide (0 ≤ l.S) &&
    optionToWf l.To && rlpWf l.marshalToFastRLP

/-- A valid access-list instance. -/
def accessListTxWf (a : EthereumAccessListTx) : Bool :=
  decide (a.Nonce < 2 ^ 64) && decide (a.Gas < 2 ^ 64) && decide (0 ≤ a.ChainID) &&
    decide (0 ≤ a.GasPrice) && decide (0 ≤ a.Value) && decide (0 ≤ a.V) &&
    decide (0 ≤ a.R) && decide (0 ≤ a.S) && optionToWf a.To &&
    accessListWf a.AccessList && rlpWf a.marshalToFastRLP

/-- A valid dynamic-fee instance. -/
def dynamicFeeTxWf (df : EthereumDynamicFeeTx) : Bool :=
  decide (df.Nonce < 2 ^ 64) && decide (df.Gas < 2 ^ 64) && decide (0 ≤ df.ChainID) &&
    decide (0 ≤ df.GasTipCap) && decide (0 ≤ df.GasFeeCap) && decide (0 ≤ df.Value) &&
    decide (0 ≤ df.V) && decide (0 ≤ df.R) && decide (0 ≤ df.S) && optionToWf df.To &&
    accessListWf df.AccessList && rlpWf df.marshalToFastRLP

/-- A valid variant instance, in the sense of the spec's round-trip law. -/
def txDataWf : EthereumTxData → Bool
  | .legacy l => legacyWf l
  | .accessListTx a => accessListTxWf a
  | .dynamicFee df => dynamicFeeTxWf df

instance {ε α : Type} [DecidableEq ε] [DecidableEq α] : DecidableEq (Except ε α) := fun a b =>
  match a, b with
  | .error e₁, .error e₂ =>
    if h : e₁ = e₂ then isTrue (by rw [h])
    else isFalse (by intro hc; injection hc with h2; exact h h2)
  | .ok a₁, .ok a₂ =>
    if h : a₁ = a₂ then isTrue (by rw [h])
    else isFalse (by intro hc; injection hc with h2; exact h h2)
  | .error _, .ok _ => isFalse (by intro hc; cases hc)
  | .ok _, .error _ => isFalse (by intro hc; cases hc)

/-- A twenty-byte sample recipient address. -/
def sampleTo : Bytes := [17, 17, 17, 17, 17, 17, 17, 17, 17, 17, 17, 17, 17, 17, 17, 17, 17, 17, 17, 17]

/-- A concrete legacy payload matching the spec's scenario A on chain 87
(v = 2·87 + 35 = 209): value 0, one byte of data, gas price 10 GWei, gas
limit 21000, recipient present, nonce 1. -/
def sampleLegacy : EthereumLegacyTx :=
  { Nonce := 1, GasPrice := 10000000000, Gas := 21000, To := some sampleTo,
    Value := 0, Data := [171], V := 209, R := 5, S := 6 }

/-- A concrete access-list payload. -/
def sampleAccessListTx : EthereumAccessListTx :=
  { ChainID := 87, Nonce := 1, GasPrice := 3, Gas := 21000, To := some sampleTo,
    Value := 7, Data := [],
    AccessList := [⟨[9, 9, 9, 9, 9, 9, 9, 9, 9, 9, 9, 9, 9, 9, 9, 9, 9, 9, 9, 9],
      [[0, 0, 0, 0, 0, 0, 0, 0, 0, 0, 0, 0, 0, 0, 0, 0,
        0, 0, 0, 0, 0, 0, 0, 0, 0, 0, 0, 0, 0, 0, 0, 1]]⟩],
    V := 1, R := 5, S := 6 }

/-- A concrete dynamic-fee payload. -/
def sampleDynamicFeeTx : EthereumDynamicFeeTx :=
  { ChainID := 87, Nonce := 2, GasTipCap := 4, GasFeeCap := 9, Gas := 30000,
    To := none, Value := 0, Data := [1, 2, 3], AccessList := [],
    V := 0, R := 8, S := 9 }

/-- The zero legacy payload (every field zero or empty). -/
def zeroLegacy : EthereumLegacyTx :=
  { Nonce := 0, GasPrice := 0, Gas := 0, To := none, Value := 0,
    Data := [], V := 0, R := 0, S := 0 }

/-- A fresh receiver transaction for decoding into (the Go code decodes
into a zero-value `EthereumTransaction`). -/
def baseRx : EthereumTransaction :=
  { inner := .legacy zeroLegacy, innerBinarySize := 0, id := none, senderPK := none }

/-- A decoded scenario-A envelope: the sample legacy payload with its
recorded encoded size. -/
def sampleTx : EthereumTransaction :=
  { inner := .legacy sampleLegacy,
    innerBinarySize := (encodeCanonicalData (.legacy sampleLegacy)).length,
    id := none, senderPK := none }

/-- The sample access-list envelope. -/
def sampleAccessTx : EthereumTransaction :=
  { inner := .accessListTx sampleAccessListTx,
    innerBinarySize := (encodeCanonicalData (.accessListTx sampleAccessListTx)).length,
    id := none, senderPK := none }

/-- The sample dynamic-fee envelope. -/
def sampleDynTx : EthereumTransaction :=
  { inner := .dynamicFee sampleDynamicFeeTx,
    innerBinarySize := (encodeCanonicalData (.dynamicFee sampleDynamicFeeTx)).length,
    id := none, senderPK := none }

/-- An envelope whose chain id (87) is fixed but whose recorded size
exceeds the 1 MiB ceiling. -/
def oversizedTx : EthereumTransaction :=
  { inner := .legacy sampleLegacy, innerBinarySize := 1048577, id := none, senderPK := none }

/-- Call data of 1 MiB + 1 bytes. -/
def bigData : Bytes := List.replicate 1048577 1

/-- A scenario-A-shaped legacy payload whose data is bigger than 1 MiB. -/
def bigLegacy : EthereumLegacyTx :=
  { Nonce := 1, GasPrice := 10000000000, Gas := 21000, To := some sampleTo,
    Value := 0, Data := bigData, V := 209, R := 5, S := 6 }

/-- The envelope of `bigLegacy` with its recorded encoded size — 1048621
is exactly `(encodeCanonicalData (.legacy bigLegacy)).length`, the value
`DecodeCanonical` records for these bytes (proved in
`bigLegacy_encode_length`). -/
def bigTx : EthereumTransaction :=
  { inner := .legacy bigLegacy, innerBinarySize := 1048621, id := none, senderPK := none }

/-- A legacy payload whose value is so large that the wavelet conversion
overflows int64 (10^30 wei / 10^10 = 10^20 > 2^63 - 1). -/
def hugeValueLegacy : EthereumLegacyTx :=
  { Nonce := 1, GasPrice := 10000000000, Gas := 21000, To := some sampleTo,
    Value := 1000000000000000000000000000000, Data := [], V := 209, R := 5, S := 6 }

/-- The envelope of `hugeValueLegacy`. -/
def hugeTx : EthereumTransaction :=
  { inner := .legacy hugeValueLegacy, innerBinarySize := 100, id := none, senderPK := none }

/-- A legacy payload with a negative value (only constructible
programmatically; the decoder never produces one), exercising the
non-positive-amount branch. -/
def negValueLegacy : EthereumLegacyTx :=
  { Nonce := 1, GasPrice := 10000000000, Gas := 21000, To := some sampleTo,
    Value := -20000000000, Data := [], V := 209, R := 5, S := 6 }

/-- The envelope of `negValueLegacy`. -/
def negTx : EthereumTransaction :=
  { inner := .legacy negValueLegacy, innerBinarySize := 100, id := none, senderPK := none }

/-- A cancellation-shaped legacy payload: value 0 and empty data
(scenario B). -/
def cancelLegacy : EthereumLegacyTx :=
  { Nonce := 1, GasPrice := 10000000000, Gas := 21000, To := some sampleTo,
    Value := 0, Data := [], V := 209, R := 5, S := 6 }

/-- A cancellation-shaped envelope: value 0 and empty data (scenario B). -/
def cancelTx : EthereumTransaction :=
  { inner := .legacy cancelLegacy, innerBinarySize := 100, id := none, senderPK := none }

/-- A legacy payload with both value and data set. -/
def bothLegacy : EthereumLegacyTx :=
  { Nonce := 1, GasPrice := 10000000000, Gas := 21000, To := some sampleTo,
    Value := 30000000000, Data := [171], V := 209, R := 5, S := 6 }

/-- An envelope with both value and data set. -/
def bothTx : EthereumTransaction :=
  { inner := .legacy bothLegacy, innerBinarySize := 100, id := none, senderPK := none }

end GowavesEth

namespace GowavesEth

theorem beEncodeAux_zero (fuel : Nat) : beEncodeAux fuel 0 = [] := by
  cases fuel <;> rfl

theorem beEncodeAux_congr (f₁ f₂ n : Nat) (h₁ : n ≤ f₁) (h₂ : n ≤ f₂) :
    beEncodeAux f₁ n = beEncodeAux f₂ n := by
  induction f₁ using Nat.strong_induction_on generalizing f₂ n with
  | _ f₁ ih =>
    match n with
    | 0 => rw [beEncodeAux_zero, beEncodeAux_zero]
    | n + 1 =>
      match f₁, f₂ with
      | g₁ + 1, g₂ + 1 =>
        show beEncodeAux g₁ ((n + 1) / 256) ++ _ = beEncodeAux g₂ ((n + 1) / 256) ++ _
        have hd : (n + 1) / 256 ≤ n := Nat.le_of_lt_succ (Nat.div_lt_self (Nat.succ_pos n) (by norm_num))
        rw [ih g₁ (Nat.lt_succ_self g₁) g₂ ((n + 1) / 256)
          (le_trans hd (Nat.le_of_succ_le_succ h₁)) (le_trans hd (Nat.le_of_succ_le_succ h₂))]

theorem beEncode_succ (n : Nat) (h : n ≠ 0) :
    beEncode n = beEncode (n / 256) ++ [n % 256] := by
  match n, h with
  | n + 1, _ =>
    show beEncodeAux (n + 1) (n + 1) = _
    have hd : (n + 1) / 256 ≤ n := Nat.le_of_lt_succ (Nat.div_lt_self (Nat.succ_pos n) (by norm_num))
    show beEncodeAux n ((n + 1) / 256) ++ [(n + 1) % 256] = _
    rw [beEncodeAux_congr n ((n + 1) / 256) ((n + 1) / 256) (le_trans hd (Nat.le_refl n)) (Nat.le_refl _)]
    rfl

theorem beEncode_zero : beEncode 0 = [] := rfl

theorem beEncode_small (n : Nat) (h0 : n ≠ 0) (h : n < 256) : beEncode n = [n] := by
  rw [beEncode_succ n h0, Nat.div_eq_of_lt h, Nat.mod_eq_of_lt h, beEncode_zero]
  rfl

theorem beEncode_head_ne_zero (n : Nat) (h : n ≠ 0) :
    ∃ h0 t, beEncode n = h0 :: t ∧ h0 ≠ 0 := by
  induction n using Nat.strong_induction_on with
  | _ n ih =>
    by_cases hs : n < 256
    · refine ⟨n, [], ?_, h⟩
      exact beEncode_small n h hs
    · have hq : n / 256 ≠ 0 := by
        intro hq0
        apply hs
        have hdm := Nat.div_add_mod n 256
        rw [hq0, Nat.mul_zero, Nat.zero_add] at hdm
        rw [← hdm]
        exact Nat.mod_lt _ (by norm_num)
      obtain ⟨h0, t, heq, hne⟩ := ih (n / 256) (Nat.div_lt_self (Nat.pos_of_ne_zero h) (by norm_num)) hq
      exact ⟨h0, t ++ [n % 256], by rw [beEncode_succ n h, heq]; rfl, hne⟩

theorem beEncode_ne_nil (n : Nat) (h : n ≠ 0) : beEncode n ≠ [] := by
  obtain ⟨h0, t, heq, _⟩ := beEncode_head_ne_zero n h
  rw [heq]
  simp

theorem beEncode_length_le (k : Nat) (n : Nat) (h : n < 256 ^ k) :
    (beEncode n).length ≤ k := by
  induction k generalizing n with
  | zero =>
    interval_cases n
    simp [beEncode_zero]
  | succ k ih =>
    by_cases h0 : n = 0
    · simp [h0, beEncode_zero]
    · rw [beEncode_succ n h0]
      have : n / 256 < 256 ^ k := by
        rw [Nat.div_lt_iff_lt_mul (by norm_num)]
        calc n < 256 ^ (k + 1) := h
        _ = 256 ^ k * 256 := by ring
      simpa using Nat.succ_le_succ (ih (n / 256) this)

theorem beDecode_append_single (bs : Bytes) (b : Nat) :
    beDecode (bs ++ [b]) = beDecode bs * 256 + b := by
  unfold beDecode
  rw [List.foldl_append]
  rfl

theorem beDecode_beEncode (n : Nat) : beDecode (beEncode n) = n := by
  induction n using Nat.strong_induction_on with
  | _ n ih =>
    by_cases h0 : n = 0
    · simp [h0, beEncode_zero, beDecode]
    · rw [beEncode_succ n h0, beDecode_append_single,
        ih (n / 256) (Nat.div_lt_self (Nat.pos_of_ne_zero h0) (by norm_num)),
        Nat.mul_comm]
      exact Nat.div_add_mod n 256

theorem decodeMinimalNat_beEncode (n : Nat) : decodeMinimalNat (beEncode n) = some n := by
  by_cases h0 : n = 0
  · simp [h0, beEncode_zero, decodeMinimalNat]
  · obtain ⟨h0b, t, heq, hne⟩ := beEncode_head_ne_zero n h0
    rw [heq]
    have harm : decodeMinimalNat (h0b :: t) = if h0b = 0 then none else some (beDecode (h0b :: t)) := rfl
    rw [harm, if_neg hne, ← heq, beDecode_beEncode]

theorem take_exact {α : Type} (l₁ l₂ : List α) (n : Nat) (h : n = l₁.length) :
    (l₁ ++ l₂).take n = l₁ := by
  subst h
  exact List.take_left l₁ l₂

theorem drop_exact {α : Type} (l₁ l₂ : List α) (n : Nat) (h : n = l₁.length) :
    (l₁ ++ l₂).drop n = l₂ := by
  subst h
  exact List.drop_left l₁ l₂

theorem beEncode_length_le_eight (n : Nat) (h : n < 2 ^ 64) : (beEncode n).length ≤ 8 := by
  apply beEncode_length_le 8 n
  calc n < 2 ^ 64 := h
  _ = 256 ^ 8 := by norm_num

theorem beEncode_length_pos (n : Nat) (h : n ≠ 0) : 1 ≤ (beEncode n).length := by
  obtain ⟨h0, t, heq, _⟩ := beEncode_head_ne_zero n h
  rw [heq]
  simp

theorem rlpEncodeBytes_ne_nil (bs : Bytes) : rlpEncodeBytes bs ≠ [] := by
  unfold rlpEncodeBytes
  split
  · rename_i h
    intro hnil
    rw [hnil] at h
    simp at h
  · split <;> simp

theorem rlpEncode_ne_nil (x : RlpItem) : rlpEncode x ≠ [] := by
  match x with
  | .str bs => exact rlpEncodeBytes_ne_nil bs
  | .list items =>
    show rlpEncode (.list items) ≠ []
    unfold rlpEncode
    split <;> simp

theorem rlpEncodeItems_cons (x : RlpItem) (xs : List RlpItem) :
    rlpEncodeItems (x :: xs) = rlpEncode x ++ rlpEncodeItems xs := rfl

theorem rlpCost_pos (x : RlpItem) : 1 ≤ rlpCost x := by
  match x with
  | .str bs => simp [rlpCost]
  | .list items => simp [rlpCost]

theorem rlpCostItems_pos (its : List RlpItem) : 1 ≤ rlpCostItems its := by
  match its with
  | [] => simp [rlpCostItems]
  | x :: xs =>
    show 1 ≤ 1 + max (rlpCost x) (rlpCostItems xs)
    omega

theorem rlpEncode_length_pos (x : RlpItem) : 1 ≤ (rlpEncode x).length :=
  List.length_pos.mpr (rlpEncode_ne_nil x)

mutual

theorem rlpCost_le : ∀ x : RlpItem, rlpCost x ≤ 2 * (rlpEncode x).length
  | .str bs => by
    have := rlpEncode_length_pos (.str bs)
    show 1 ≤ 2 * (rlpEncode (.str bs)).length
    omega
  | .list items => by
    have hG := rlpCostItems_le items
    show 1 + rlpCostItems items ≤ 2 * (rlpEncode (.list items)).length
    unfold rlpEncode
    split
    · simp only [List.length_cons]
      omega
    · simp only [List.length_cons, List.length_append]
      omega

theorem rlpCostItems_le : ∀ its : List RlpItem, rlpCostItems its ≤ 2 * (rlpEncodeItems its).length + 1
  | [] => by
    show 1 ≤ 2 * (rlpEncodeItems ([] : List RlpItem)).length + 1
    omega
  | x :: xs => by
    have hx := rlpCost_le x
    have hxs := rlpCostItems_le xs
    have hpos := rlpEncode_length_pos x
    show 1 + max (rlpCost x) (rlpCostItems xs) ≤ 2 * (rlpEncodeItems (x :: xs)).length + 1
    rw [rlpEncodeItems_cons, List.length_append]
    omega

end

theorem parseRlp_encodeBytes (f : Nat) (bs rest : Bytes) (hwf : bs.length < 2 ^ 64) :
    parseRlp (f + 1) (rlpEncodeBytes bs ++ rest) = some (.str bs, rest) := by
  unfold rlpEncodeBytes
  by_cases h1 : bs.length = 1 ∧ bs.headD 0 < 0x80
  · rw [if_pos h1]
    obtain ⟨b, rfl⟩ := List.length_eq_one.mp h1.1
    have hb : b < 0x80 := by simpa using h1.2
    show parseRlp (f + 1) (b :: rest) = some (.str [b], rest)
    simp only [parseRlp]
    rw [if_pos hb]
  · rw [if_neg h1]
    by_cases h2 : bs.length < 56
    · rw [if_pos h2]
      show parseRlp (f + 1) (((0x80 + bs.length) :: bs) ++ rest) = some (.str bs, rest)
      rw [List.cons_append]
      simp only [parseRlp]
      rw [if_neg (by omega), if_pos (by omega), Nat.add_sub_cancel_left,
        if_pos (by simp), take_exact bs rest bs.length rfl, if_neg h1,
        drop_exact bs rest bs.length rfl]
    · rw [if_neg h2]
      have hlen0 : bs.length ≠ 0 := by omega
      have hll1 : 1 ≤ (beEncode bs.length).length := beEncode_length_pos _ hlen0
      have hll8 : (beEncode bs.length).length ≤ 8 := beEncode_length_le_eight _ hwf
      obtain ⟨h0, t, hbe, hne0⟩ := beEncode_head_ne_zero bs.length hlen0
      show parseRlp (f + 1)
        (((0xb7 + (beEncode bs.length).length) :: (beEncode bs.length ++ bs)) ++ rest) =
        some (.str bs, rest)
      rw [List.cons_append, List.append_assoc]
      simp only [parseRlp]
      rw [if_neg (by omega), if_neg (by omega), if_pos (by omega), Nat.add_sub_cancel_left,
        if_pos (by simp), take_exact _ _ _ rfl]
      rw [show (beEncode bs.length).headD 0 = h0 by rw [hbe]; rfl]
      rw [if_neg hne0, beDecode_beEncode, if_neg (by omega), drop_exact _ _ _ rfl,
        if_pos (by simp), take_exact bs rest bs.length rfl, drop_exact bs rest bs.length rfl]

theorem parse_encode (fuel : Nat) :
    (∀ x rest, rlpWf x = true → rlpCost x ≤ fuel →
      parseRlp fuel (rlpEncode x ++ rest) = some (x, rest)) ∧
    (∀ its, rlpWfItems its = true → rlpCostItems its ≤ fuel →
      parseRlpItems fuel (rlpEncodeItems its) = some its) := by
  induction fuel using Nat.strong_induction_on with
  | _ fuel ih =>
    constructor
    · intro x rest hwf hc
      obtain ⟨f, rfl⟩ : ∃ f, fuel = f + 1 := by
        cases fuel
        · exact absurd hc (by have := rlpCost_pos x; omega)
        · exact ⟨_, rfl⟩
      match x with
      | .str bs =>
        have hlen : bs.length < 2 ^ 64 := by
          have : decide (bs.length < 2 ^ 64) = true := hwf
          simpa using this
        exact parseRlp_encodeBytes f bs rest hlen
      | .list items =>
        simp only [rlpWf, Bool.and_eq_true, decide_eq_true_eq] at hwf
        have hplen : (rlpEncodeItems items).length < 2 ^ 64 := hwf.1
        have hci : rlpCostItems items ≤ f := by
          have : rlpCost (.list items) = 1 + rlpCostItems items := rfl
          omega
        have hIH := (ih f (Nat.lt_succ_self f)).2 items hwf.2 hci
        show parseRlp (f + 1) (rlpEncode (.list items) ++ rest) = some (.list items, rest)
        unfold rlpEncode
        by_cases h56 : (rlpEncodeItems items).length < 56
        · rw [if_pos h56, List.cons_append]
          simp only [parseRlp]
          rw [if_neg (by omega), if_neg (by omega), if_neg (by omega), if_pos (by omega),
            Nat.add_sub_cancel_left, if_pos (by simp),
            take_exact _ _ _ rfl, hIH, drop_exact _ _ _ rfl]
        · rw [if_neg h56]
          have hlen0 : (rlpEncodeItems items).length ≠ 0 := by omega
          have hll1 : 1 ≤ (beEncode (rlpEncodeItems items).length).length :=
            beEncode_length_pos _ hlen0
          have hll8 : (beEncode (rlpEncodeItems items).length).length ≤ 8 :=
            beEncode_length_le_eight _ hplen
          obtain ⟨h0, t, hbe, hne0⟩ := beEncode_head_ne_zero (rlpEncodeItems items).length hlen0
          rw [List.cons_append, List.append_assoc]
          simp only [parseRlp]
          rw [if_neg (by omega), if_neg (by omega), if_neg (by omega), if_neg (by omega),
            Nat.add_sub_cancel_left, if_pos (by simp), take_exact _ _ _ rfl]
          rw [show (beEncode (rlpEncodeItems items).length).headD 0 = h0 by rw [hbe]; rfl]
          rw [if_neg hne0, beDecode_beEncode, if_neg (by omega), drop_exact _ _ _ rfl,
            if_pos (by simp), take_exact _ _ _ rfl, hIH, drop_exact _ _ _ rfl]
    · intro its hwf hc
      obtain ⟨f, rfl⟩ : ∃ f, fuel = f + 1 := by
        cases fuel
        · exact absurd hc (by have := rlpCostItems_pos its; omega)
        · exact ⟨_, rfl⟩
      match its with
      | [] =>
        show parseRlpItems (f + 1) (rlpEncodeItems ([] : List RlpItem)) = some []
        rfl
      | x :: xs =>
        simp only [rlpWfItems, Bool.and_eq_true, decide_eq_true_eq] at hwf
        have hcx : rlpCost x ≤ f := by
          have : rlpCostItems (x :: xs) = 1 + max (rlpCost x) (rlpCostItems xs) := rfl
          omega
        have hcxs : rlpCostItems xs ≤ f := by
          have : rlpCostItems (x :: xs) = 1 + max (rlpCost x) (rlpCostItems xs) := rfl
          omega
        have hx := (ih f (Nat.lt_succ_self f)).1 x (rlpEncodeItems xs) hwf.1 hcx
        have hxs := (ih f (Nat.lt_succ_self f)).2 xs hwf.2 hcxs
        rw [rlpEncodeItems_cons]
        obtain ⟨b, t, hb⟩ : ∃ b t, rlpEncode x = b :: t := by
          cases henc : rlpEncode x
          · exact absurd henc (rlpEncode_ne_nil x)
          · exact ⟨_, _, rfl⟩
        rw [hb, List.cons_append]
        show parseRlpItems (f + 1) (b :: (t ++ rlpEncodeItems xs)) = some (x :: xs)
        simp only [parseRlpItems]
        rw [show b :: (t ++ rlpEncodeItems xs) = (b :: t) ++ rlpEncodeItems xs from rfl, ← hb,
          hx]
        show (match parseRlpItems f (rlpEncodeItems xs) with
          | some items => some (x :: items)
          | none => none) = some (x :: xs)
        rw [hxs]

theorem parseRlpFull_encode (x : RlpItem) (hwf : rlpWf x = true) :
    parseRlpFull (rlpEncode x) = some x := by
  unfold parseRlpFull
  have hc : rlpCost x ≤ 2 * (rlpEncode x).length + 2 := by
    have := rlpCost_le x
    omega
  have := (parse_encode (2 * (rlpEncode x).length + 2)).1 x [] hwf hc
  rw [List.append_nil] at this
  rw [this]

theorem decodeU64_marshalNat (n : Nat) (h : n < 2 ^ 64) :
    decodeU64 (marshalNat n) = some n := by
  show (if (beEncode n).length ≤ 8 then decodeMinimalNat (beEncode n) else none) = some n
  rw [if_pos (beEncode_length_le_eight n h), decodeMinimalNat_beEncode]

theorem decodeBigInt_marshalInt (i : Int) (h : 0 ≤ i) :
    decodeBigInt (marshalInt i) = some i := by
  show Option.map Int.ofNat (decodeMinimalNat (beEncode i.toNat)) = some i
  rw [decodeMinimalNat_beEncode]
  simp [Int.toNat_of_nonneg h]

theorem decodeTo_marshalTo (o : Option Bytes) (h : optionToWf o = true) :
    decodeTo (marshalTo o) = some o := by
  match o with
  | none => rfl
  | some a =>
    have h20 : a.length = 20 := by simpa [optionToWf] using h
    match a with
    | [] => simp at h20
    | x :: t =>
      show decodeTo (.str (x :: t)) = some (some (x :: t))
      show (if (x :: t).length = 20 then some (some (x :: t)) else none) = some (some (x :: t))
      rw [if_pos h20]

theorem decodeStorageKeys_marshal (ks : List Bytes) (h : storageKeysWf ks = true) :
    decodeStorageKeys (marshalStorageKeys ks) = some ks := by
  induction ks with
  | nil => rfl
  | cons k kt ih =>
    simp only [storageKeysWf, Bool.and_eq_true, decide_eq_true_eq] at h
    show decodeStorageKeys (.str k :: marshalStorageKeys kt) = some (k :: kt)
    show (if k.length = 32 then (decodeStorageKeys (marshalStorageKeys kt)).map (k :: ·)
      else none) = some (k :: kt)
    rw [if_pos h.1, ih h.2]
    rfl

theorem decodeAccessTuple_marshal (t : EthereumAccessTuple)
    (ha : t.Address.length = 20) (hk : storageKeysWf t.StorageKeys = true) :
    decodeAccessTuple (marshalAccessTuple t) = some t := by
  show decodeAccessTuple (.list [.str t.Address, .list (marshalStorageKeys t.StorageKeys)]) =
    some t
  show (if t.Address.length = 20 then
    (decodeStorageKeys (marshalStorageKeys t.StorageKeys)).map
      (fun ks => ⟨t.Address, ks⟩) else none) = some t
  rw [if_pos ha, decodeStorageKeys_marshal _ hk]
  rfl

theorem decodeAccessTuples_marshal (al : EthereumAccessList) (h : accessListWf al = true) :
    decodeAccessTuples (marshalAccessListItems al) = some al := by
  induction al with
  | nil => rfl
  | cons t ts ih =>
    simp only [accessListWf, Bool.and_eq_true, decide_eq_true_eq] at h
    obtain ⟨⟨ha, hk⟩, hts⟩ := h
    show decodeAccessTuples (marshalAccessTuple t :: marshalAccessListItems ts) = some (t :: ts)
    simp [decodeAccessTuples, decodeAccessTuple_marshal t ha hk, ih hts]

theorem decodeAccessList_marshal (al : EthereumAccessList) (h : accessListWf al = true) :
    decodeAccessList (marshalAccessList al) = some al := by
  show decodeAccessTuples (marshalAccessListItems al) = some al
  exact decodeAccessTuples_marshal al h

theorem decodeData_str (bs : Bytes) : decodeData (.str bs) = some bs := rfl

theorem legacy_unmarshal_marshal (l : EthereumLegacyTx) (h : legacyWf l = true) :
    EthereumLegacyTx.unmarshalFromFastRLP l.marshalToFastRLP = some l := by
  unfold legacyWf at h
  simp only [Bool.and_eq_true, decide_eq_true_eq] at h
  obtain ⟨⟨⟨⟨⟨⟨⟨⟨hn, hg⟩, hgp⟩, hv⟩, hV⟩, hR⟩, hS⟩, hto⟩, _⟩ := h
  show EthereumLegacyTx.unmarshalFromFastRLP
    (.list [marshalNat l.Nonce, marshalInt l.GasPrice, marshalNat l.Gas, marshalTo l.To,
      marshalInt l.Value, .str l.Data, marshalInt l.V, marshalInt l.R, marshalInt l.S]) = some l
  simp [EthereumLegacyTx.unmarshalFromFastRLP, decodeU64_marshalNat _ hn,
    decodeU64_marshalNat _ hg, decodeBigInt_marshalInt _ hgp, decodeBigInt_marshalInt _ hv,
    decodeBigInt_marshalInt _ hV, decodeBigInt_marshalInt _ hR, decodeBigInt_marshalInt _ hS,
    decodeTo_marshalTo _ hto, decodeData_str]

theorem accessListTx_unmarshal_marshal (a : EthereumAccessListTx)
    (h : accessListTxWf a = true) :
    EthereumAccessListTx.unmarshalFromFastRLP a.marshalToFastRLP = some a := by
  unfold accessListTxWf at h
  simp only [Bool.and_eq_true, decide_eq_true_eq] at h
  obtain ⟨⟨⟨⟨⟨⟨⟨⟨⟨⟨hn, hg⟩, hcid⟩, hgp⟩, hv⟩, hV⟩, hR⟩, hS⟩, hto⟩, hal⟩, _⟩ := h
  show EthereumAccessListTx.unmarshalFromFastRLP
    (.list [marshalInt a.ChainID, marshalNat a.Nonce, marshalInt a.GasPrice, marshalNat a.Gas,
      marshalTo a.To, marshalInt a.Value, .str a.Data, marshalAccessList a.AccessList,
      marshalInt a.V, marshalInt a.R, marshalInt a.S]) = some a
  simp [EthereumAccessListTx.unmarshalFromFastRLP, decodeU64_marshalNat _ hn,
    decodeU64_marshalNat _ hg, decodeBigInt_marshalInt _ hcid, decodeBigInt_marshalInt _ hgp,
    decodeBigInt_marshalInt _ hv, decodeBigInt_marshalInt _ hV, decodeBigInt_marshalInt _ hR,
    decodeBigInt_marshalInt _ hS, decodeTo_marshalTo _ hto, decodeAccessList_marshal _ hal,
    decodeData_str]

theorem dynamicFeeTx_unmarshal_marshal (df : EthereumDynamicFeeTx)
    (h : dynamicFeeTxWf df = true) :
    EthereumDynamicFeeTx.unmarshalFromFastRLP df.marshalToFastRLP = some df := by
  unfold dynamicFeeTxWf at h
  simp only [Bool.and_eq_true, decide_eq_true_eq] at h
  obtain ⟨⟨⟨⟨⟨⟨⟨⟨⟨⟨⟨hn, hg⟩, hcid⟩, htip⟩, hcap⟩, hv⟩, hV⟩, hR⟩, hS⟩, hto⟩, hal⟩, _⟩ := h
  show EthereumDynamicFeeTx.unmarshalFromFastRLP
    (.list [marshalInt df.ChainID, marshalNat df.Nonce, marshalInt df.GasTipCap,
      marshalInt df.GasFeeCap, marshalNat df.Gas, marshalTo df.To, marshalInt df.Value,
      .str df.Data, marshalAccessList df.AccessList,
      marshalInt df.V, marshalInt df.R, marshalInt df.S]) = some df
  simp [EthereumDynamicFeeTx.unmarshalFromFastRLP, decodeU64_marshalNat _ hn,
    decodeU64_marshalNat _ hg, decodeBigInt_marshalInt _ hcid, decodeBigInt_marshalInt _ htip,
    decodeBigInt_marshalInt _ hcap, decodeBigInt_marshalInt _ hv, decodeBigInt_marshalInt _ hV,
    decodeBigInt_marshalInt _ hR, decodeBigInt_marshalInt _ hS, decodeTo_marshalTo _ hto,
    decodeAccessList_marshal _ hal, decodeData_str]

theorem rlpEncode_list_head (its : List RlpItem) :
    ∃ b t, rlpEncode (.list its) = b :: t ∧ 0xc0 ≤ b := by
  unfold rlpEncode
  split
  · exact ⟨_, _, rfl, by omega⟩
  · exact ⟨_, _, rfl, by omega⟩

theorem legacyWf_rlpWf (l : EthereumLegacyTx) (h : legacyWf l = true) :
    rlpWf l.marshalToFastRLP = true := by
  unfold legacyWf at h
  simp only [Bool.and_eq_true] at h
  exact h.2

theorem accessListTxWf_rlpWf (a : EthereumAccessListTx) (h : accessListTxWf a = true) :
    rlpWf a.marshalToFastRLP = true := by
  unfold accessListTxWf at h
  simp only [Bool.and_eq_true] at h
  exact h.2

theorem dynamicFeeTxWf_rlpWf (df : EthereumDynamicFeeTx) (h : dynamicFeeTxWf df = true) :
    rlpWf df.marshalToFastRLP = true := by
  unfold dynamicFeeTxWf at h
  simp only [Bool.and_eq_true] at h
  exact h.2

theorem decodeCanonical_encodeCanonical (x : EthereumTxData) (h : txDataWf x = true)
    (tx0 : EthereumTransaction) :
    tx0.DecodeCanonical (encodeCanonicalData x) =
      (none, { tx0 with inner := x, innerBinarySize := (encodeCanonicalData x).length }) := by
  match x with
  | .legacy l =>
    have hwfl : legacyWf l = true := h
    have hp := parseRlpFull_encode _ (legacyWf_rlpWf l hwfl)
    have hu := legacy_unmarshal_marshal l hwfl
    obtain ⟨b, t, henc, hb⟩ := rlpEncode_list_head
      [marshalNat l.Nonce, marshalInt l.GasPrice, marshalNat l.Gas, marshalTo l.To,
        marshalInt l.Value, .str l.Data, marshalInt l.V, marshalInt l.R, marshalInt l.S]
    have hed : encodeCanonicalData (.legacy l) = rlpEncode l.marshalToFastRLP := rfl
    have hbt : encodeCanonicalData (.legacy l) = b :: t := henc
    unfold EthereumTransaction.DecodeCanonical
    rw [if_pos (by
      rw [hbt]
      refine ⟨by simp, ?_⟩
      show (0x7f : Nat) < b
      omega)]
    unfold decodeLegacyCanonical
    rw [hed, hp]
    simp only [hu]
  | .accessListTx a =>
    have hwfa : accessListTxWf a = true := h
    have hp := parseRlpFull_encode _ (accessListTxWf_rlpWf a hwfa)
    have hu := accessListTx_unmarshal_marshal a hwfa
    have hed : encodeCanonicalData (.accessListTx a) =
      1 :: rlpEncode a.marshalToFastRLP := rfl
    have htyped : decodeTypedCanonical (1 :: rlpEncode a.marshalToFastRLP) =
        .ok (.accessListTx a) := by
      simp [decodeTypedCanonical, decodeAccessListRLP, hp, hu]
    unfold EthereumTransaction.DecodeCanonical
    rw [hed, if_neg (by simp), htyped]
  | .dynamicFee df =>
    have hwfd : dynamicFeeTxWf df = true := h
    have hp := parseRlpFull_encode _ (dynamicFeeTxWf_rlpWf df hwfd)
    have hu := dynamicFeeTx_unmarshal_marshal df hwfd
    have hed : encodeCanonicalData (.dynamicFee df) =
      2 :: rlpEncode df.marshalToFastRLP := rfl
    have htyped : decodeTypedCanonical (2 :: rlpEncode df.marshalToFastRLP) =
        .ok (.dynamicFee df) := by
      simp [decodeTypedCanonical, decodeDynamicFeeRLP, hp, hu]
    unfold EthereumTransaction.DecodeCanonical
    rw [hed, if_neg (by simp), htyped]

/-- C1: for every valid variant instance (legacy, access-list, or
dynamic-fee), decoding the canonical encoding restores a transaction whose
payload equals the original in all logical fields, with the encoded byte
length recorded; no error is reported. -/
theorem claim1_decode_encode_roundtrip (tx tx0 : EthereumTransaction)
    (h : txDataWf tx.inner = true) :
    tx0.DecodeCanonical tx.EncodeCanonical =
      (none, { tx0 with inner := tx.inner, innerBinarySize := tx.EncodeCanonical.length }) :=
  decodeCanonical_encodeCanonical tx.inner h tx0

theorem claim1_witness :
    (txDataWf sampleTx.inner = true ∧
      baseRx.DecodeCanonical sampleTx.EncodeCanonical =
        (none,
          { baseRx with inner := sampleTx.inner,
                        innerBinarySize := sampleTx.EncodeCanonical.length })) ∧
    (txDataWf sampleAccessTx.inner = true ∧
      baseRx.DecodeCanonical sampleAccessTx.EncodeCanonical =
        (none,
          { baseRx with inner := sampleAccessTx.inner,
                        innerBinarySize := sampleAccessTx.EncodeCanonical.length })) ∧
    (txDataWf sampleDynTx.inner = true ∧
      baseRx.DecodeCanonical sampleDynTx.EncodeCanonical =
        (none,
          { baseRx with inner := sampleDynTx.inner,
                        innerBinarySize := sampleDynTx.EncodeCanonical.length })) :=
  ⟨⟨by decide, claim1_decode_encode_roundtrip sampleTx baseRx (by decide)⟩,
   ⟨by decide, claim1_decode_encode_roundtrip sampleAccessTx baseRx (by decide)⟩,
   ⟨by decide, claim1_decode_encode_roundtrip sampleDynTx baseRx (by decide)⟩⟩

/-- C2: the chain-id rule is checked first, so an envelope with a foreign
chain id and an oversized recorded byte length is rejected with the
chain-mismatch error, not the size error. -/
theorem claim2_chain_mismatch_wins (tx : EthereumTransaction) (scheme : Scheme)
    (hchain : tx.ChainId ≠ Int.ofNat scheme)
    (hsize : 1024 * 1024 < tx.innerBinarySize) :
    tx.Validate scheme = .error (errChainMismatch scheme tx.ChainId) := by
  unfold EthereumTransaction.Validate
  rw [if_pos hchain]

theorem claim2_witness :
    (oversizedTx.ChainId ≠ Int.ofNat 88 ∧ 1024 * 1024 < oversizedTx.innerBinarySize) ∧
    oversizedTx.Validate 88 = .error (errChainMismatch 88 oversizedTx.ChainId) :=
  ⟨⟨by decide, by decide⟩, claim2_chain_mismatch_wins oversizedTx 88 (by decide) (by decide)⟩

/-- C3: `DecodeCanonical` dispatches on the leading byte: a first byte
above 0x7f decodes the whole input through the legacy branch; a consumed
tag byte 1 routes the remaining bytes to the access-list variant; tag 2 to
the dynamic-fee variant; any other leading tag byte fails with the wrapped
`ErrTxTypeNotSupported`. -/
theorem claim3_leading_byte_dispatch (tx0 : EthereumTransaction) (bs : Bytes)
    (bLeg bBad : Nat) (hLeg : 0x7f < bLeg) (hBad : bBad ≤ 0x7f)
    (hBad1 : bBad ≠ 1) (hBad2 : bBad ≠ 2) :
    tx0.DecodeCanonical (bLeg :: bs) = decodeLegacyCanonical tx0 (bLeg :: bs) ∧
    tx0.DecodeCanonical (1 :: bs) =
      (match decodeAccessListRLP bs with
       | some a =>
         (none,
           { tx0 with inner := .accessListTx a, innerBinarySize := bs.length + 1 })
       | none => (some (.typedError .accessListDecodeError), tx0)) ∧
    tx0.DecodeCanonical (2 :: bs) =
      (match decodeDynamicFeeRLP bs with
       | some df =>
         (none,
           { tx0 with inner := .dynamicFee df, innerBinarySize := bs.length + 1 })
       | none => (some (.typedError .dynamicFeeDecodeError), tx0)) ∧
    tx0.DecodeCanonical (bBad :: bs) = (some (.typedError .txTypeNotSupported), tx0) := by
  refine ⟨?_, ?_, ?_, ?_⟩
  · unfold EthereumTransaction.DecodeCanonical
    rw [if_pos ⟨by simp, by simpa using hLeg⟩]
  · unfold EthereumTransaction.DecodeCanonical
    rw [if_neg (by simp)]
    have hstep : decodeTypedCanonical (1 :: bs) =
        (match decodeAccessListRLP bs with
         | some a => Except.ok (EthereumTxData.accessListTx a)
         | none => Except.error TypedDecodeError.accessListDecodeError) := by
      simp [decodeTypedCanonical]
    rw [hstep]
    cases decodeAccessListRLP bs <;> simp
  · unfold EthereumTransaction.DecodeCanonical
    rw [if_neg (by simp)]
    have hstep : decodeTypedCanonical (2 :: bs) =
        (match decodeDynamicFeeRLP bs with
         | some df => Except.ok (EthereumTxData.dynamicFee df)
         | none => Except.error TypedDecodeError.dynamicFeeDecodeError) := by
      simp [decodeTypedCanonical]
    rw [hstep]
    cases decodeDynamicFeeRLP bs <;> simp
  · unfold EthereumTransaction.DecodeCanonical
    rw [if_neg (by simp; omega)]
    have hstep : decodeTypedCanonical (bBad :: bs) =
        Except.error TypedDecodeError.txTypeNotSupported := by
      simp [decodeTypedCanonical, hBad1, hBad2]
    rw [hstep]

theorem claim3_witness :
    ((0x7f : Nat) < 0xc1 ∧ (3 : Nat) ≤ 0x7f ∧ (3 : Nat) ≠ 1 ∧ (3 : Nat) ≠ 2) ∧
    (baseRx.DecodeCanonical [0xc1] = decodeLegacyCanonical baseRx [0xc1] ∧
     baseRx.DecodeCanonical [1] =
       (match decodeAccessListRLP [] with
        | some a =>
          (none,
            { baseRx with inner := .accessListTx a,
                          innerBinarySize := List.length ([] : Bytes) + 1 })
        | none => (some (.typedError .accessListDecodeError), baseRx)) ∧
     baseRx.DecodeCanonical [2] =
       (match decodeDynamicFeeRLP [] with
        | some df =>
          (none,
            { baseRx with inner := .dynamicFee df,
                          innerBinarySize := List.length ([] : Bytes) + 1 })
        | none => (some (.typedError .dynamicFeeDecodeError), baseRx)) ∧
     baseRx.DecodeCanonical [3] = (some (.typedError .txTypeNotSupported), baseRx)) :=
  ⟨by decide,
   claim3_leading_byte_dispatch baseRx [] 0xc1 3 (by decide) (by decide) (by decide) (by decide)⟩

theorem rlpEncodeBytes_length_ge (bs : Bytes) : bs.length ≤ (rlpEncodeBytes bs).length := by
  unfold rlpEncodeBytes
  split
  · exact Nat.le_refl _
  · split
    · simp
    · simp [List.length_append]
      omega

theorem rlpEncode_list_length_ge (its : List RlpItem) :
    (rlpEncodeItems its).length ≤ (rlpEncode (.list its)).length := by
  unfold rlpEncode
  split
  · simp
  · simp [List.length_append]
    omega

theorem rlpEncodeItems_length_mem (x : RlpItem) (its : List RlpItem) (h : x ∈ its) :
    (rlpEncode x).length ≤ (rlpEncodeItems its).length := by
  induction its with
  | nil => cases h
  | cons y ys ih =>
    rw [rlpEncodeItems_cons, List.length_append]
    cases h with
    | head => omega
    | tail _ hmem =>
      have := ih hmem
      omega

theorem encode_legacy_data_le (l : EthereumLegacyTx) :
    l.Data.length ≤ (encodeCanonicalData (.legacy l)).length := by
  have h2 := rlpEncode_list_length_ge [marshalNat l.Nonce, marshalInt l.GasPrice,
    marshalNat l.Gas, marshalTo l.To, marshalInt l.Value, .str l.Data, marshalInt l.V,
    marshalInt l.R, marshalInt l.S]
  have h3 : (rlpEncode (RlpItem.str l.Data)).length ≤
      (rlpEncodeItems [marshalNat l.Nonce, marshalInt l.GasPrice, marshalNat l.Gas,
        marshalTo l.To, marshalInt l.Value, .str l.Data, marshalInt l.V, marshalInt l.R,
        marshalInt l.S]).length := by
    apply rlpEncodeItems_length_mem
    exact List.mem_cons_of_mem _ (List.mem_cons_of_mem _ (List.mem_cons_of_mem _
      (List.mem_cons_of_mem _ (List.mem_cons_of_mem _ (List.mem_cons_self _ _)))))
  have h4 : l.Data.length ≤ (rlpEncode (RlpItem.str l.Data)).length :=
    rlpEncodeBytes_length_ge l.Data
  have h1 : encodeCanonicalData (.legacy l) = rlpEncode (.list
    [marshalNat l.Nonce, marshalInt l.GasPrice, marshalNat l.Gas, marshalTo l.To,
      marshalInt l.Value, .str l.Data, marshalInt l.V, marshalInt l.R, marshalInt l.S]) := rfl
  rw [h1]
  omega

theorem bigData_length : bigLegacy.Data.length = 1048577 := by
  have h : bigLegacy.Data = List.replicate 1048577 1 := rfl
  rw [h]
  exact List.length_replicate 1048577 1

theorem bigData_encode_length : (rlpEncode (RlpItem.str bigLegacy.Data)).length = 1048581 := by
  show (rlpEncodeBytes bigLegacy.Data).length = 1048581
  unfold rlpEncodeBytes
  rw [bigData_length]
  rw [if_neg (fun hc => absurd hc.1 (by norm_num)), if_neg (by norm_num)]
  rw [List.length_cons, List.length_append, bigData_length]
  have hb3 : (beEncode 1048577).length = 3 := by decide
  rw [hb3]

theorem bigLegacy_payload_length :
    (rlpEncodeItems [marshalNat bigLegacy.Nonce, marshalInt bigLegacy.GasPrice,
      marshalNat bigLegacy.Gas, marshalTo bigLegacy.To, marshalInt bigLegacy.Value,
      .str bigLegacy.Data, marshalInt bigLegacy.V, marshalInt bigLegacy.R,
      marshalInt bigLegacy.S]).length = 1048617 := by
  rw [rlpEncodeItems_cons, rlpEncodeItems_cons, rlpEncodeItems_cons, rlpEncodeItems_cons,
    rlpEncodeItems_cons, rlpEncodeItems_cons, rlpEncodeItems_cons, rlpEncodeItems_cons,
    rlpEncodeItems_cons]
  simp only [List.length_append]
  rw [bigData_encode_length]
  norm_num [show (rlpEncode (marshalNat bigLegacy.Nonce)).length = 1 from by decide,
    show (rlpEncode (marshalInt bigLegacy.GasPrice)).length = 6 from by decide,
    show (rlpEncode (marshalNat bigLegacy.Gas)).length = 3 from by decide,
    show (rlpEncode (marshalTo bigLegacy.To)).length = 21 from by decide,
    show (rlpEncode (marshalInt bigLegacy.Value)).length = 1 from by decide,
    show (rlpEncode (marshalInt bigLegacy.V)).length = 2 from by decide,
    show (rlpEncode (marshalInt bigLegacy.R)).length = 1 from by decide,
    show (rlpEncode (marshalInt bigLegacy.S)).length = 1 from by decide,
    show (rlpEncodeItems ([] : List RlpItem)).length = 0 from rfl]

theorem bigLegacy_encode_eq : encodeCanonicalData (.legacy bigLegacy) = rlpEncode (RlpItem.list
    [marshalNat bigLegacy.Nonce, marshalInt bigLegacy.GasPrice, marshalNat bigLegacy.Gas,
      marshalTo bigLegacy.To, marshalInt bigLegacy.Value, .str bigLegacy.Data,
      marshalInt bigLegacy.V, marshalInt bigLegacy.R, marshalInt bigLegacy.S]) := rfl

theorem rlpEncode_list_length_long (its : List RlpItem)
    (h : 56 ≤ (rlpEncodeItems its).length) :
    (rlpEncode (.list its)).length =
      1 + (beEncode (rlpEncodeItems its).length).length + (rlpEncodeItems its).length := by
  unfold rlpEncode
  rw [if_neg (by omega)]
  simp [List.length_append]
  ring

theorem bigLegacy_encode_length :
    (encodeCanonicalData (.legacy bigLegacy)).length = 1048621 := by
  rw [bigLegacy_encode_eq,
    rlpEncode_list_length_long _ (by rw [bigLegacy_payload_length]; norm_num),
    bigLegacy_payload_length]
  norm_num [show (beEncode 1048617).length = 3 from by decide]

/-- C4 counterexample: an envelope meeting every condition of the claim —
legacy, correctly chain-bound (chain id 87 = target), value 0, non-empty
data, gas price 10 GWei, gas limit 21000, recipient present, nonce 1, and
a recorded byte length equal to its canonical encoding's length (as
`DecodeCanonical` records it) — is still rejected, because its data makes
the encoding exceed 1 MiB: `Validate` reports the size error, not
success. -/
theorem claim4_counterexample :
    bigTx.EthereumTxType = .legacy ∧ bigTx.Value = 0 ∧ bigTx.Data ≠ [] ∧
    bigTx.GasPrice = Int.ofNat EthereumGasPrice ∧ bigTx.Gas = 21000 ∧
    bigTx.To = some sampleTo ∧ bigTx.Nonce = 1 ∧ bigTx.ChainId = Int.ofNat 87 ∧
    bigTx.innerBinarySize = bigTx.EncodeCanonical.length ∧
    bigTx.Validate 87 = .error errTooBig := by
  have hlen : bigTx.EncodeCanonical.length = 1048621 := by
    have h5 : bigTx.EncodeCanonical = encodeCanonicalData (.legacy bigLegacy) := rfl
    rw [h5, bigLegacy_encode_length]
  refine ⟨rfl, rfl, ?_, by decide, rfl, rfl, rfl, by decide, ?_, ?_⟩
  · intro hnil
    have h2 : bigLegacy.Data = [] := hnil
    have hl := bigData_length
    rw [h2] at hl
    simp at hl
  · show (1048621 : Nat) = bigTx.EncodeCanonical.length
    rw [hlen]
  · unfold EthereumTransaction.Validate
    rw [if_neg (by decide), if_neg (by decide), if_pos (by decide)]

/-- C4, amended with the size bound the code enforces: every legacy
envelope with value 0, non-empty data, gas price 10 GWei, gas limit 21000,
a present recipient, nonce 1, chain id equal to the target chain id, and a
recorded encoded length of at most 1 MiB validates successfully, returning
the unchanged transaction. -/
theorem claim4_scenario_a (tx : EthereumTransaction) (scheme : Scheme)
    (l : EthereumLegacyTx) (hinner : tx.inner = .legacy l) (hval : l.Value = 0)
    (hdata : l.Data ≠ []) (hgp : l.GasPrice = Int.ofNat EthereumGasPrice)
    (hgas : l.Gas = 21000) (hto : l.To.isSome) (hnonce : l.Nonce = 1)
    (hchain : tx.ChainId = Int.ofNat scheme) (hsize : tx.innerBinarySize ≤ 1024 * 1024) :
    tx.Validate scheme = .ok tx := by
  have hV : tx.Value = 0 := by
    simp [EthereumTransaction.Value, hinner, EthereumTxData.value, hval]
  have hD : tx.Data = l.Data := by
    simp [EthereumTransaction.Data, hinner, EthereumTxData.data]
  have hT : tx.EthereumTxType = .legacy := by
    simp [EthereumTransaction.EthereumTxType, hinner, EthereumTxData.ethereumTxType]
  have hG : tx.Gas = 21000 := by
    simp [EthereumTransaction.Gas, hinner, EthereumTxData.gas, hgas]
  have hGP : tx.GasPrice = Int.ofNat EthereumGasPrice := by
    simp [EthereumTransaction.GasPrice, hinner, EthereumTxData.gasPrice, hgp]
  have hTo : tx.To = l.To := by
    simp [EthereumTransaction.To, hinner, EthereumTxData.to]
  have hN : tx.Nonce = 1 := by
    simp [EthereumTransaction.Nonce, hinner, EthereumTxData.nonce, hnonce]
  have c1 : ¬(tx.ChainId ≠ Int.ofNat scheme) := by rw [hchain]; simp
  have c2 : ¬(tx.EthereumTxType ≠ EthereumTxType.legacy) := by rw [hT]; simp
  have c3 : ¬(1024 * 1024 < tx.innerBinarySize) := by omega
  have c4 : ¬(tx.Gas = 0) := by rw [hG]; norm_num
  have hww : EthereumWeiToWavelet 0 = Except.ok 0 := by decide
  unfold EthereumTransaction.Validate
  rw [if_neg c1, if_neg c2, if_neg c3, if_neg c4, hV, hww]
  show (if (0 : Int) < 0 then Except.error (ValidationError.nonPositiveAmount 0 "waves")
    else if (0 : Int) = 0 ∧ tx.Data = [] then Except.error errCancellation
    else if (0 : Int) ≠ 0 ∧ tx.Data ≠ [] then Except.error errEitherDataOrValue
    else if tx.GasPrice ≠ Int.ofNat EthereumGasPrice then Except.error errGasPriceNot10GWei
    else if tx.To = none then Except.error errContractCreation
    else if tx.Nonce = 0 then Except.error errInvalidTimestamp
    else Except.ok tx) = Except.ok tx
  have c5 : ¬((0 : Int) < 0) := by norm_num
  have c6 : ¬((0 : Int) = 0 ∧ tx.Data = []) := fun hc => hdata (hD ▸ hc.2)
  have c7 : ¬((0 : Int) ≠ 0 ∧ tx.Data ≠ []) := fun hc => hc.1 rfl
  have c8 : ¬(tx.GasPrice ≠ Int.ofNat EthereumGasPrice) := by rw [hGP]; simp
  have c9 : ¬(tx.To = none) := by
    rw [hTo]
    obtain ⟨a, ha⟩ := Option.isSome_iff_exists.mp hto
    rw [ha]
    simp
  have c10 : ¬(tx.Nonce = 0) := by rw [hN]; norm_num
  rw [if_neg c5, if_neg c6, if_neg c7, if_neg c8, if_neg c9, if_neg c10]

theorem claim4_scenario_a_witness :
    (sampleTx.inner = .legacy sampleLegacy ∧ sampleLegacy.Value = 0 ∧
      sampleLegacy.Data ≠ [] ∧ sampleLegacy.GasPrice = Int.ofNat EthereumGasPrice ∧
      sampleLegacy.Gas = 21000 ∧ sampleLegacy.To.isSome ∧ sampleLegacy.Nonce = 1 ∧
      sampleTx.ChainId = Int.ofNat 87 ∧ sampleTx.innerBinarySize ≤ 1024 * 1024) ∧
    sampleTx.Validate 87 = .ok sampleTx :=
  ⟨⟨rfl, rfl, by decide, by decide, rfl, rfl, rfl, by decide, by decide⟩,
   claim4_scenario_a sampleTx 87 sampleLegacy rfl rfl (by decide) (by decide) rfl
     (by decide) rfl (by decide) (by decide)⟩

/-- C5: the transaction id is the Keccak-256 digest (the ecosystem hash,
passed in as a function since the crypto package is external) of the
canonical encoding: on an envelope with an empty id cache, `GetID` returns
`keccak (EncodeCanonical tx)`, stores it in the cache, and any later call
returns the same digest with the envelope unchanged. -/
theorem claim5_id_is_keccak_of_encoding (keccak : Bytes → Bytes) (scheme : Scheme)
    (tx : EthereumTransaction) (h : tx.id = none) :
    (tx.GetID keccak scheme).1 = keccak tx.EncodeCanonical ∧
    (tx.GetID keccak scheme).2 = { tx with id := some (keccak tx.EncodeCanonical) } ∧
    (tx.GetID keccak scheme).2.GetID keccak scheme =
      ((tx.GetID keccak scheme).1, (tx.GetID keccak scheme).2) := by
  unfold EthereumTransaction.GetID EthereumTransaction.GenerateID
  rw [h]
  simp

theorem claim5_witness :
    sampleTx.id = none ∧
    ((sampleTx.GetID (fun bs => bs) 87).1 = (fun (bs : Bytes) => bs) sampleTx.EncodeCanonical ∧
     (sampleTx.GetID (fun bs => bs) 87).2 =
       { sampleTx with id := some ((fun (bs : Bytes) => bs) sampleTx.EncodeCanonical) } ∧
     (sampleTx.GetID (fun bs => bs) 87).2.GetID (fun bs => bs) 87 =
       ((sampleTx.GetID (fun bs => bs) 87).1, (sampleTx.GetID (fun bs => bs) 87).2)) :=
  ⟨rfl, claim5_id_is_keccak_of_encoding (fun bs => bs) 87 sampleTx rfl⟩

/-- C6: every envelope accepted by `Validate` has exactly one of value and
data non-empty; when the five preceding rules pass, a zero value with
empty data is rejected with the cancellation error and a non-zero value
with non-empty data with the either-data-or-value error — both
independently of the gas price, recipient and nonce (so the two checks sit
after the negative-amount rule and before the gas-price rule). -/
theorem claim6_value_data_exclusive (tx : EthereumTransaction) (scheme : Scheme) :
    (∀ tx2, tx.Validate scheme = .ok tx2 →
      ((tx.Value ≠ 0 ∧ tx.Data = []) ∨ (tx.Value = 0 ∧ tx.Data ≠ []))) ∧
    (tx.ChainId = Int.ofNat scheme → tx.EthereumTxType = .legacy →
      tx.innerBinarySize ≤ 1024 * 1024 → tx.Gas ≠ 0 →
      ∀ w, EthereumWeiToWavelet tx.Value = .ok w → 0 ≤ w →
        ((tx.Value = 0 → tx.Data = [] → tx.Validate scheme = .error errCancellation) ∧
         (tx.Value ≠ 0 → tx.Data ≠ [] →
           tx.Validate scheme = .error errEitherDataOrValue))) := by
  constructor
  · intro tx2 hok
    unfold EthereumTransaction.Validate at hok
    by_cases h1 : tx.ChainId ≠ Int.ofNat scheme
    · rw [if_pos h1] at hok
      simp at hok
    rw [if_neg h1] at hok
    by_cases h2 : tx.EthereumTxType ≠ EthereumTxType.legacy
    · rw [if_pos h2] at hok
      simp at hok
    rw [if_neg h2] at hok
    by_cases h3 : 1024 * 1024 < tx.innerBinarySize
    · rw [if_pos h3] at hok
      simp at hok
    rw [if_neg h3] at hok
    by_cases h4 : tx.Gas = 0
    · rw [if_pos h4] at hok
      simp at hok
    rw [if_neg h4] at hok
    split at hok
    · simp at hok
    · rename_i w hw
      by_cases h5 : w < 0
      · rw [if_pos h5] at hok
        simp at hok
      rw [if_neg h5] at hok
      by_cases h6 : tx.Value = 0 ∧ tx.Data = []
      · rw [if_pos h6] at hok
        simp at hok
      rw [if_neg h6] at hok
      by_cases h7 : tx.Value ≠ 0 ∧ tx.Data ≠ []
      · rw [if_pos h7] at hok
        simp at hok
      by_cases hv : tx.Value = 0
      · right
        exact ⟨hv, fun hd => h6 ⟨hv, hd⟩⟩
      · left
        refine ⟨hv, ?_⟩
        by_contra hd
        exact h7 ⟨hv, hd⟩
  · intro hc ht hs hg w hw hw0
    have c1 : ¬(tx.ChainId ≠ Int.ofNat scheme) := by rw [hc]; simp
    have c2 : ¬(tx.EthereumTxType ≠ EthereumTxType.legacy) := by rw [ht]; simp
    have c3 : ¬(1024 * 1024 < tx.innerBinarySize) := by omega
    have c5 : ¬(w < 0) := by omega
    constructor
    · intro hv0 hd0
      unfold EthereumTransaction.Validate
      rw [if_neg c1, if_neg c2, if_neg c3, if_neg hg, hw]
      show (if w < 0 then Except.error (ValidationError.nonPositiveAmount w "waves")
        else if tx.Value = 0 ∧ tx.Data = [] then Except.error errCancellation
        else if tx.Value ≠ 0 ∧ tx.Data ≠ [] then Except.error errEitherDataOrValue
        else if tx.GasPrice ≠ Int.ofNat EthereumGasPrice then
          Except.error errGasPriceNot10GWei
        else if tx.To = none then Except.error errContractCreation
        else if tx.Nonce = 0 then Except.error errInvalidTimestamp
        else Except.ok tx) = Except.error errCancellation
      rw [if_neg c5, if_pos ⟨hv0, hd0⟩]
    · intro hv hd
      unfold EthereumTransaction.Validate
      rw [if_neg c1, if_neg c2, if_neg c3, if_neg hg, hw]
      show (if w < 0 then Except.error (ValidationError.nonPositiveAmount w "waves")
        else if tx.Value = 0 ∧ tx.Data = [] then Except.error errCancellation
        else if tx.Value ≠ 0 ∧ tx.Data ≠ [] then Except.error errEitherDataOrValue
        else if tx.GasPrice ≠ Int.ofNat EthereumGasPrice then
          Except.error errGasPriceNot10GWei
        else if tx.To = none then Except.error errContractCreation
        else if tx.Nonce = 0 then Except.error errInvalidTimestamp
        else Except.ok tx) = Except.error errEitherDataOrValue
      rw [if_neg c5, if_neg (fun hcon => hv hcon.1), if_pos ⟨hv, hd⟩]

theorem claim6_witness :
    (cancelTx.Validate 87 = .error errCancellation) ∧
    (bothTx.Validate 87 = .error errEitherDataOrValue) ∧
    ((sampleTx.Value ≠ 0 ∧ sampleTx.Data = []) ∨
      (sampleTx.Value = 0 ∧ sampleTx.Data ≠ [])) :=
  ⟨((claim6_value_data_exclusive cancelTx 87).2 (by decide) rfl (by decide) (by decide) 0
      (by decide) (by decide)).1 rfl rfl,
   ((claim6_value_data_exclusive bothTx 87).2 (by decide) rfl (by decide) (by decide) 3
      (by decide) (by decide)).2 (by decide) (by decide),
   (claim6_value_data_exclusive sampleTx 87).1 sampleTx (by decide)⟩

/-- C7: `Protected` is unconditionally true for the access-list and
dynamic-fee variants; for a decoded (non-negative) legacy v scalar of bit
length at most 8 it is true exactly when v is none of 0, 1, 27, 28, and
for a longer v it is always true. -/
theorem claim7_replay_protection (tx : EthereumTransaction) :
    ((tx.EthereumTxType = .accessList ∨ tx.EthereumTxType = .dynamicFee) →
      tx.Protected = true) ∧
    (∀ l, tx.inner = .legacy l → 0 ≤ l.V →
      ((bitLen l.V.natAbs ≤ 8 →
        (tx.Protected = true ↔ (l.V ≠ 0 ∧ l.V ≠ 1 ∧ l.V ≠ 27 ∧ l.V ≠ 28))) ∧
       (8 < bitLen l.V.natAbs → tx.Protected = true))) := by
  constructor
  · intro htype
    cases hinner : tx.inner with
    | legacy l =>
      exfalso
      have : tx.EthereumTxType = EthereumTxType.legacy := by
        simp [EthereumTransaction.EthereumTxType, hinner, EthereumTxData.ethereumTxType]
      rcases htype with h | h <;> rw [this] at h <;> cases h
    | accessListTx a =>
      show (match tx.inner with
        | EthereumTxData.legacy l => isProtectedV l.V
        | _ => true) = true
      rw [hinner]
    | dynamicFee df =>
      show (match tx.inner with
        | EthereumTxData.legacy l => isProtectedV l.V
        | _ => true) = true
      rw [hinner]
  · intro l hinner hV
    have hprot : tx.Protected = isProtectedV l.V := by
      show (match tx.inner with
        | EthereumTxData.legacy l2 => isProtectedV l2.V
        | _ => true) = isProtectedV l.V
      rw [hinner]
    constructor
    · intro h8
      rw [hprot]
      unfold isProtectedV
      rw [if_pos h8]
      simp only [Bool.and_eq_true, decide_eq_true_eq]
      constructor
      · rintro ⟨⟨⟨h27, h28⟩, h1⟩, h0⟩
        exact ⟨by omega, by omega, by omega, by omega⟩
      · rintro ⟨h0, h1, h27, h28⟩
        exact ⟨⟨⟨by omega, by omega⟩, by omega⟩, by omega⟩
    · intro h8
      rw [hprot]
      unfold isProtectedV
      rw [if_neg (by omega)]

theorem claim7_witness :
    (sampleAccessTx.Protected = true) ∧ (sampleTx.Protected = true) :=
  ⟨(claim7_replay_protection sampleAccessTx).1 (Or.inl rfl),
   (((claim7_replay_protection sampleTx).2 sampleLegacy rfl (by decide)).1
      (by decide)).mpr (by decide)⟩

/-- C8 counterexample: a legacy envelope passing rules 1–4 (chain id 87 =
target, legacy, small recorded size, positive gas) whose value 10^30 wei
converts to 10^20 wavelets — not negative, but outside int64 — makes
`Validate` fail with the conversion's fee-validation error: an error other
than `NonPositiveAmount` does arise from the conversion step, refuting the
claim. -/
theorem claim8_counterexample :
    hugeTx.ChainId = Int.ofNat 87 ∧ hugeTx.EthereumTxType = .legacy ∧
    hugeTx.innerBinarySize ≤ 1024 * 1024 ∧ hugeTx.Gas ≠ 0 ∧
    0 ≤ Int.ediv hugeTx.Value 10000000000 ∧
    EthereumWeiToWavelet hugeTx.Value = .error (weiToInt64ErrorMsg hugeTx.Value) ∧
    hugeTx.Validate 87 = .error (.feeValidation (weiToInt64ErrorMsg hugeTx.Value)) := by
  refine ⟨by decide, rfl, by decide, by decide, by decide, by decide, ?_⟩
  unfold EthereumTransaction.Validate
  rw [if_neg (by decide), if_neg (by decide), if_neg (by decide), if_neg (by decide),
    show EthereumWeiToWavelet hugeTx.Value =
      Except.error (weiToInt64ErrorMsg hugeTx.Value) from by decide]

/-- C8, amended: when rules 1–4 pass, a conversion overflowing the 64-bit
native range makes `Validate` fail with the conversion's fee-validation
error; otherwise `Validate` fails with `NonPositiveAmount` exactly when
the converted amount is negative (and a `NonPositiveAmount` error only
ever reports a negative converted amount). -/
theorem claim8_conversion_errors (tx : EthereumTransaction) (scheme : Scheme)
    (h1 : tx.ChainId = Int.ofNat scheme) (h2 : tx.EthereumTxType = .legacy)
    (h3 : tx.innerBinarySize ≤ 1024 * 1024) (h4 : tx.Gas ≠ 0) :
    (∀ m, EthereumWeiToWavelet tx.Value = .error m →
      tx.Validate scheme = .error (.feeValidation m)) ∧
    (∀ w, EthereumWeiToWavelet tx.Value = .ok w → w < 0 →
      tx.Validate scheme = .error (.nonPositiveAmount w "waves")) ∧
    (∀ w of, tx.Validate scheme = .error (.nonPositiveAmount w of) →
      EthereumWeiToWavelet tx.Value = .ok w ∧ w < 0 ∧ of = "waves") := by
  have c1 : ¬(tx.ChainId ≠ Int.ofNat scheme) := by rw [h1]; simp
  have c2 : ¬(tx.EthereumTxType ≠ EthereumTxType.legacy) := by rw [h2]; simp
  have c3 : ¬(1024 * 1024 < tx.innerBinarySize) := by omega
  refine ⟨?_, ?_, ?_⟩
  · intro m hm
    unfold EthereumTransaction.Validate
    rw [if_neg c1, if_neg c2, if_neg c3, if_neg h4, hm]
  · intro w hw hneg
    unfold EthereumTransaction.Validate
    rw [if_neg c1, if_neg c2, if_neg c3, if_neg h4, hw]
    show (if w < 0 then Except.error (ValidationError.nonPositiveAmount w "waves")
      else if tx.Value = 0 ∧ tx.Data = [] then Except.error errCancellation
      else if tx.Value ≠ 0 ∧ tx.Data ≠ [] then Except.error errEitherDataOrValue
      else if tx.GasPrice ≠ Int.ofNat EthereumGasPrice then
        Except.error errGasPriceNot10GWei
      else if tx.To = none then Except.error errContractCreation
      else if tx.Nonce = 0 then Except.error errInvalidTimestamp
      else Except.ok tx) = Except.error (ValidationError.nonPositiveAmount w "waves")
    rw [if_pos hneg]
  · intro w of herr
    unfold EthereumTransaction.Validate at herr
    rw [if_neg c1, if_neg c2, if_neg c3, if_neg h4] at herr
    split at herr
    · simp [weiToInt64ErrorMsg] at herr
    · rename_i w2 hw2
      by_cases h5 : w2 < 0
      · rw [if_pos h5] at herr
        injection herr with h
        injection h with ha hb
        subst ha
        exact ⟨hw2, h5, hb.symm⟩
      · rw [if_neg h5] at herr
        exfalso
        repeat' split at herr
        all_goals simp [errCancellation, errEitherDataOrValue, errGasPriceNot10GWei,
          errContractCreation, errInvalidTimestamp] at herr

theorem claim8_witness :
    (hugeTx.Validate 87 = .error (.feeValidation (weiToInt64ErrorMsg hugeTx.Value))) ∧
    (negTx.Validate 87 = .error (.nonPositiveAmount (-2) "waves")) ∧
    (EthereumWeiToWavelet negTx.Value = .ok (-2) ∧ (-2 : Int) < 0 ∧ "waves" = "waves") :=
  ⟨(claim8_conversion_errors hugeTx 87 (by decide) rfl (by decide) (by decide)).1
      (weiToInt64ErrorMsg hugeTx.Value) (by decide),
   ((claim8_conversion_errors negTx 87 (by decide) rfl (by decide) (by decide)).2.1)
      (-2) (by decide) (by decide),
   ((claim8_conversion_errors negTx 87 (by decide) rfl (by decide) (by decide)).2.2)
      (-2) "waves" (by decide)⟩

/-- C9: decoding and validation are atomic on failure — whenever
`DecodeCanonical` reports an error the receiver is returned unchanged
(variant payload, recorded length and both memoization caches untouched),
and `Validate` never returns a modified transaction: any success returns
exactly its input. -/
theorem claim9_atomic_on_failure (tx : EthereumTransaction) (bs : Bytes) (scheme : Scheme) :
    (∀ e, (tx.DecodeCanonical bs).1 = some e → (tx.DecodeCanonical bs).2 = tx) ∧
    (∀ tx2, tx.Validate scheme = .ok tx2 → tx2 = tx) := by
  constructor
  · intro e he
    unfold EthereumTransaction.DecodeCanonical at he ⊢
    by_cases hc : 0 < bs.length ∧ 0x7f < bs.headD 0
    · rw [if_pos hc] at he ⊢
      unfold decodeLegacyCanonical at he ⊢
      split at he
      · rename_i heq
        simp only [heq]
      · rename_i value heq
        split at he
        · rename_i hequ
          simp only [heq, hequ]
        · simp at he
    · rw [if_neg hc] at he ⊢
      split at he
      · rename_i e2 heq
        simp only [heq]
      · rename_i inner heq
        simp at he
  · intro tx2 hok
    unfold EthereumTransaction.Validate at hok
    by_cases h1 : tx.ChainId ≠ Int.ofNat scheme
    · rw [if_pos h1] at hok
      simp at hok
    rw [if_neg h1] at hok
    by_cases h2 : tx.EthereumTxType ≠ EthereumTxType.legacy
    · rw [if_pos h2] at hok
      simp at hok
    rw [if_neg h2] at hok
    by_cases h3 : 1024 * 1024 < tx.innerBinarySize
    · rw [if_pos h3] at hok
      simp at hok
    rw [if_neg h3] at hok
    by_cases h4 : tx.Gas = 0
    · rw [if_pos h4] at hok
      simp at hok
    rw [if_neg h4] at hok
    split at hok
    · simp at hok
    · rename_i w hw
      by_cases h5 : w < 0
      · rw [if_pos h5] at hok
        simp at hok
      rw [if_neg h5] at hok
      by_cases h6 : tx.Value = 0 ∧ tx.Data = []
      · rw [if_pos h6] at hok
        simp at hok
      rw [if_neg h6] at hok
      by_cases h7 : tx.Value ≠ 0 ∧ tx.Data ≠ []
      · rw [if_pos h7] at hok
        simp at hok
      rw [if_neg h7] at hok
      by_cases h8 : tx.GasPrice ≠ Int.ofNat EthereumGasPrice
      · rw [if_pos h8] at hok
        simp at hok
      rw [if_neg h8] at hok
      by_cases h9 : tx.To = none
      · rw [if_pos h9] at hok
        simp at hok
      rw [if_neg h9] at hok
      by_cases h10 : tx.Nonce = 0
      · rw [if_pos h10] at hok
        simp at hok
      rw [if_neg h10] at hok
      injection hok with h
      exact h.symm

theorem claim9_witness :
    ((baseRx.DecodeCanonical [1]).1 = some (.typedError .accessListDecodeError) ∧
     (baseRx.DecodeCanonical [1]).2 = baseRx) ∧
    (sampleTx.Validate 87 = .ok sampleTx ∧ sampleTx = sampleTx) :=
  ⟨⟨by decide, (claim9_atomic_on_failure baseRx [1] 87).1
      (.typedError .accessListDecodeError) (by decide)⟩,
   ⟨by decide, (claim9_atomic_on_failure sampleTx [] 87).2 sampleTx (by decide)⟩⟩

/-- C10: the empty input is routed to the typed path and fails with the
"empty typed transaction bytes" error (no out-of-bounds access), and the
tag byte 0 — the legacy variant's numeric type — fails with
`ErrTxTypeNotSupported`, so a legacy payload is never built through the
typed path. -/
theorem claim10_empty_and_zero_tag (tx0 : EthereumTransaction) (bs : Bytes) :
    tx0.DecodeCanonical [] = (some (.typedError .emptyTypedTransactionBytes), tx0) ∧
    tx0.DecodeCanonical (0 :: bs) = (some (.typedError .txTypeNotSupported), tx0) := by
  constructor
  · rfl
  · unfold EthereumTransaction.DecodeCanonical
    rw [if_neg (by simp)]
    have hstep : decodeTypedCanonical (0 :: bs) =
        Except.error TypedDecodeError.txTypeNotSupported := by
      simp [decodeTypedCanonical]
    rw [hstep]

end GowavesEth
